import Mathlib

/-!
The per-key transfer loop and the snapshot writer of redis-copy-all: a shallow
embedding of `main.go`.

* Go strings are byte sequences (`GoString`); a `time.Duration` is its signed
  64-bit nanosecond count, carried as an `Int`.
* `writeToFile` (lines 70-81) is embedded over a writer that records the bytes
  it is given.
* The body of the `for` loop of `main` (lines 133-171) is `retryKey`, the loop
  itself together with the final print (line 172) is `mainLoop`/`transfer`.
  The two stores are arbitrary state-passing oracles; every store call, every
  call to `writeToFile` and every console line is recorded in an event trace.
  Because the `goto retryKey` loop need not terminate, `retryKey` takes a bound
  on the number of passes through the label and reports `Ctl.running` when the
  bound is reached; every key gets the same bound.
* `encoding/base64`, `strconv` and `strings` are not part of the repository:
  `EncodeToString`, `DecodeString`, `FormatInt` and `stringsContains` follow
  the documented behaviour of the Go standard library.
-/

namespace RedisCopyAll

/-! ## Bytes and strings -/

/-- One byte of a Go string. -/
abbrev Byte := Fin 256

/-- Go `string`: an immutable sequence of bytes, not necessarily UTF-8. -/
abbrev GoString := List Byte

/-- The newline byte, `'\n'`. -/
def newline : Byte := 10

/-! ## Library functions used by `writeToFile` -/

/-- Wrap-around of a mathematical integer into Go's `int64`. -/
def wrap64 (x : Int) : Int := (x + 2 ^ 63) % 2 ^ 64 - 2 ^ 63

/-- Go `time.Duration.Milliseconds`: `int64(d) / 1e6`, division truncating
towards zero. -/
def Milliseconds (d : Int) : Int := Int.tdiv d 1000000

/-- The ASCII digit for `d`, `'0' + d`. -/
def digitByte (d : Nat) : Byte := Fin.ofNat (48 + d % 10)

/-- Digits of `n`, most significant first, pushed in front of `acc`. The first
argument bounds the number of digits. -/
def formatBits : Nat → Nat → GoString → GoString
  | 0, _, acc => acc
  | fuel + 1, n, acc =>
    if n / 10 = 0 then digitByte n :: acc
    else formatBits fuel (n / 10) (digitByte n :: acc)

/-- Decimal text of a natural number (`strconv.FormatUint(n, 10)`). -/
def FormatUint (n : Nat) : GoString := formatBits (n + 1) n []

/-- Go `strconv.FormatInt(i, 10)`: a minus sign for negative numbers, then
the decimal digits of the magnitude. -/
def FormatInt (i : Int) : GoString :=
  if i < 0 then (45 : Byte) :: FormatUint i.natAbs else FormatUint i.natAbs

/-- The alphabet of `base64.StdEncoding`:
`A`-`Z`, `a`-`z`, `0`-`9`, `+`, `/` for the 6-bit values 0..63. -/
def encodeStd (n : Nat) : Byte :=
  if n < 26 then Fin.ofNat (65 + n)
  else if n < 52 then Fin.ofNat (97 + (n - 26))
  else if n < 62 then Fin.ofNat (48 + (n - 52))
  else if n = 62 then 43
  else 47

/-- Go `base64.RawStdEncoding.EncodeToString`: every three input bytes give
the four characters of their 24 bits; a remainder of two bytes gives three
characters and a remainder of one byte two characters, with no padding. -/
def EncodeToString : List Byte → GoString
  | b0 :: b1 :: b2 :: rest =>
    let val := b0.val * 65536 + b1.val * 256 + b2.val
    encodeStd (val / 262144 % 64) :: encodeStd (val / 4096 % 64) ::
      encodeStd (val / 64 % 64) :: encodeStd (val % 64) :: EncodeToString rest
  | [b0, b1] =>
    let val := b0.val * 65536 + b1.val * 256
    [encodeStd (val / 262144 % 64), encodeStd (val / 4096 % 64), encodeStd (val / 64 % 64)]
  | [b0] =>
    let val := b0.val * 65536
    [encodeStd (val / 262144 % 64), encodeStd (val / 4096 % 64)]
  | [] => []

/-- The decoding table of `base64.StdEncoding`: the 6-bit value of a
character of the alphabet, `none` for any other byte. -/
def decodeMap (c : Byte) : Option Nat :=
  if 65 ≤ c.val ∧ c.val ≤ 90 then some (c.val - 65)
  else if 97 ≤ c.val ∧ c.val ≤ 122 then some (c.val - 97 + 26)
  else if 48 ≤ c.val ∧ c.val ≤ 57 then some (c.val - 48 + 52)
  else if c.val = 43 then some 62
  else if c.val = 47 then some 63
  else none

/-- Go `base64.RawStdEncoding.DecodeString` on text without line breaks:
four characters give three bytes, a final group of three characters two bytes
and a final group of two characters one byte; a single left-over character or
a byte outside the alphabet is an error. -/
def DecodeString : GoString → Option (List Byte)
  | c0 :: c1 :: c2 :: c3 :: rest =>
    match decodeMap c0, decodeMap c1, decodeMap c2, decodeMap c3, DecodeString rest with
    | some s0, some s1, some s2, some s3, some out =>
      let val := s0 * 262144 + s1 * 4096 + s2 * 64 + s3
      some (Fin.ofNat (val / 65536 % 256) :: Fin.ofNat (val / 256 % 256) ::
        Fin.ofNat (val % 256) :: out)
    | _, _, _, _, _ => none
  | [c0, c1, c2] =>
    match decodeMap c0, decodeMap c1, decodeMap c2 with
    | some s0, some s1, some s2 =>
      let val := s0 * 262144 + s1 * 4096 + s2 * 64
      some [Fin.ofNat (val / 65536 % 256), Fin.ofNat (val / 256 % 256)]
    | _, _, _ => none
  | [c0, c1] =>
    match decodeMap c0, decodeMap c1 with
    | some s0, some s1 =>
      let val := s0 * 262144 + s1 * 4096
      some [Fin.ofNat (val / 65536 % 256)]
    | _, _ => none
  | [_] => none
  | [] => some []

/-! ## The snapshot writer -/

/-- The `io.Writer` handed to `writeToFile`: the nil interface, a nil
`*os.File` wrapped in a non-nil interface (what `main` passes when no dump
file was asked for; `Write` on it fails with `os.ErrInvalid` and writes
nothing), or an open file with the bytes written to it so far. -/
inductive Writer where
  | nilInterface
  | nilFile
  | file (written : GoString)
  deriving DecidableEq, Repr

/-- The call `w.Write(b)`, the returned count and error dropped as the caller
drops them. -/
def Writer.Write : Writer → GoString → Writer
  | .nilInterface, _ => .nilInterface
  | .nilFile, _ => .nilFile
  | .file written, b => .file (written ++ b)

/-- The test `w == nil` on the interface value. -/
def Writer.isNil : Writer → Bool
  | .nilInterface => true
  | _ => false

/-- The second line of a record, without its newline (lines 75-79). -/
def ttlText (ttl : Int) : GoString :=
  if ttl ≤ 0 then [48]
  else FormatInt (wrap64 (Milliseconds ttl * 1000))

/-- The function `writeToFile` of `main.go`, lines 70-81. -/
def writeToFile (w : Writer) (key value : GoString) (ttl : Int) : Writer :=
  if w.isNil then w
  else
    let w := w.Write (key ++ [newline])
    let w :=
      if ttl ≤ 0 then w.Write ([48] ++ [newline])
      else w.Write (FormatInt (wrap64 (Milliseconds ttl * 1000)) ++ [newline])
    w.Write (EncodeToString value ++ [newline])

/-- The bytes one call of `writeToFile` adds to an open file. -/
def record (key value : GoString) (ttl : Int) : GoString :=
  key ++ [newline] ++ (ttlText ttl ++ [newline]) ++ (EncodeToString value ++ [newline])

/-- Text split at newline bytes, as `strings.Split(s, "\n")` does. -/
def splitLines : GoString → List GoString
  | [] => [[]]
  | b :: rest =>
    if b = newline then [] :: splitLines rest
    else
      match splitLines rest with
      | [] => [[b]]
      | l :: ls => (b :: l) :: ls

/-- The number denoted by a string of ASCII decimal digits. -/
def decimalValue (s : GoString) : Nat :=
  s.foldl (fun acc b => 10 * acc + (b.val - 48)) 0

/-! ## The stores and what the engine observes -/

/-- A Go `error` returned by the redis client: the sentinel `redis.Nil` or any
other error, with the text its `Error()` method returns. -/
inductive GoError where
  | redisNil
  | other (msg : String)
  deriving DecidableEq, Repr

/-- The method `err.Error()`. -/
def GoError.Error : GoError → String
  | .redisNil => "redis: nil"
  | .other msg => msg

/-- Whether `substr` occurs in `s` starting at some position. -/
def containsChars : List Char → List Char → Bool
  | [], substr => substr.isEmpty
  | c :: cs, substr => substr.isPrefixOf (c :: cs) || containsChars cs substr

/-- Go `strings.Contains`. -/
def stringsContains (s substr : String) : Bool := containsChars s.data substr.data

/-- The test of line 163, `strings.Contains(err.Error(), "BUSYKEY")`. -/
def isBusyKey (err : GoError) : Bool := stringsContains err.Error "BUSYKEY"

/-- The pair `(value, err)` a redis command's `Result()` returns: the value
when `err == nil`, the error otherwise. -/
inductive Reply (α : Type) where
  | ok (val : α)
  | err (e : GoError)
  deriving DecidableEq, Repr

/-- The two redis connections as seen by the loop: each call takes the state
of the outside world and gives the next state and the reply. `PTTL` and `Dump`
are calls on `srcConn`, `Restore` on `dstConn` (`none` is a nil error). -/
structure Stores (W : Type) where
  PTTL : W → GoString → W × Reply Int
  Dump : W → GoString → W × Reply GoString
  Restore : W → GoString → Int → GoString → W × Option GoError

/-- The console lines printed inside the loop. -/
inductive Line where
  | errorGettingTTL (key : GoString) (err : GoError)
  | errorDumpingKey (key : GoString) (err : GoError)
  | keyAlreadyExists (key : GoString)
  | errorRestoringKey (err : GoError)
  | copiedKey (n total : Nat) (key : GoString)
  deriving DecidableEq, Repr

/-- What one iteration does to the outside, in order. Every event carries the
loop index `i` of the iteration that produced it. -/
inductive Event where
  | pttl (i : Nat) (key : GoString) (reply : Reply Int)
  | dump (i : Nat) (key : GoString) (reply : Reply GoString)
  | write (i : Nat) (key value : GoString) (ttl : Int)
  | restore (i : Nat) (key : GoString) (ttl : Int) (value : GoString) (reply : Option GoError)
  | print (i : Nat) (line : Line)
  deriving DecidableEq, Repr

/-- The loop index an event belongs to. -/
def Event.idx : Event → Nat
  | .pttl i _ _ => i
  | .dump i _ _ => i
  | .write i _ _ _ => i
  | .restore i _ _ _ _ => i
  | .print i _ => i

/-- How the body of the loop is left: `next` by `continue` or by reaching its
end, `exit` by `os.Exit(1)`, `running` when the bound on the passes through
`retryKey:` was reached with the body still going round. -/
inductive Ctl where
  | next
  | exit
  | running
  deriving DecidableEq, Repr

/-- The state after (part of) one iteration: the outside world, the snapshot
writer, the events of the iteration and how it was left. -/
structure KeyRun (W : Type) where
  world : W
  dkeys : Writer
  events : List Event
  ctl : Ctl

/-- The same run with `out` having happened first. -/
def KeyRun.after {W : Type} (r : KeyRun W) (out : List Event) : KeyRun W :=
  { r with events := out ++ r.events }

/-- The body of the loop from the label `retryKey:` on (lines 138-170) for the
key at index `i`. The first numeric argument bounds the passes through the
label, the second is `retryCount`. -/
def retryKey {W : Type} (st : Stores W) (i total : Nat) (key : GoString) :
    Nat → Nat → W → Writer → KeyRun W
  | 0, _, w, dkeys => ⟨w, dkeys, [], .running⟩
  | fuel + 1, retryCount, w, dkeys =>
    match st.PTTL w key with
    | (w, .err err) =>
      let out := [Event.pttl i key (.err err), .print i (.errorGettingTTL key err)]
      if retryCount < 3 then
        (retryKey st i total key fuel retryCount w dkeys).after out
      else ⟨w, dkeys, out, .exit⟩
    | (w, .ok dur) =>
      match st.Dump w key with
      | (w, .err err) =>
        let out := [Event.pttl i key (.ok dur), .dump i key (.err err),
          .print i (.errorDumpingKey key err)]
        if err = .redisNil then ⟨w, dkeys, out, .next⟩
        else
          let retryCount := retryCount + 1
          if retryCount < 3 then
            (retryKey st i total key fuel retryCount w dkeys).after out
          else ⟨w, dkeys, out, .exit⟩
      | (w, .ok data) =>
        let out := [Event.pttl i key (.ok dur), .dump i key (.ok data), .write i key data dur]
        let dkeys := writeToFile dkeys key data dur
        match st.Restore w key dur data with
        | (w, some err) =>
          if isBusyKey err then
            ⟨w, dkeys, out ++ [.restore i key dur data (some err),
              .print i (.keyAlreadyExists key)], .next⟩
          else
            ⟨w, dkeys, out ++ [.restore i key dur data (some err),
              .print i (.errorRestoringKey err)], .exit⟩
        | (w, none) =>
          ⟨w, dkeys, out ++ [.restore i key dur data none,
            .print i (.copiedKey (i + 1) total key)], .next⟩

/-- How the whole transfer ends: `success` when the loop ran to its end and
`COPIED ALL KEYS` was printed (line 172, exit status 0), `fatal` on
`os.Exit(1)`, `running` when some key was still being retried at the bound. -/
inductive Result where
  | success
  | fatal
  | running
  deriving DecidableEq, Repr

/-- The state at the end of a transfer. -/
structure Run (W : Type) where
  world : W
  dkeys : Writer
  trace : List Event
  result : Result

/-- The same run with `out` having happened first. -/
def Run.after {W : Type} (r : Run W) (out : List Event) : Run W :=
  { r with trace := out ++ r.trace }

/-- The `for i, key := range allKeys` loop of `main` (lines 133-172) over the
keys still to visit, `i` being the index of the first of them and `total` the
value of `len(allKeys)`. -/
def mainLoop {W : Type} (st : Stores W) (fuel : Nat) (skipKey : Int) (total : Nat) :
    List GoString → Nat → W → Writer → Run W
  | [], _, w, dkeys => ⟨w, dkeys, [], .success⟩
  | key :: rest, i, w, dkeys =>
    if (i : Int) < skipKey then mainLoop st fuel skipKey total rest (i + 1) w dkeys
    else
      match retryKey st i total key fuel 0 w dkeys with
      | ⟨w, dkeys, out, .next⟩ =>
        (mainLoop st fuel skipKey total rest (i + 1) w dkeys).after out
      | ⟨w, dkeys, out, .exit⟩ => ⟨w, dkeys, out, .fatal⟩
      | ⟨w, dkeys, out, .running⟩ => ⟨w, dkeys, out, .running⟩

/-- Lines 133-172 of `main`: the transfer of `allKeys` with the `-skip` flag
`skipKey` and the snapshot writer `dkeys`, every key being given at most
`fuel` passes through `retryKey:`. -/
def transfer {W : Type} (st : Stores W) (fuel : Nat) (skipKey : Int)
    (allKeys : List GoString) (w : W) (dkeys : Writer) : Run W :=
  mainLoop st fuel skipKey allKeys.length allKeys 0 w dkeys

/-! ## Scripted stores -/

/-- A store pair that answers from three scripts, one reply per call whatever
the key; a call on an exhausted script gets the default reply. -/
structure Script where
  pttl : List (Reply Int)
  dump : List (Reply GoString)
  restore : List (Option GoError)
  deriving DecidableEq, Repr

/-- The stores reading their replies from a `Script`; with the scripts used
up `PTTL` fails, `Dump` gives the empty value and `Restore` succeeds. -/
def scripted : Stores Script where
  PTTL s _ :=
    match s.pttl with
    | [] => (s, .err (.other "i/o timeout"))
    | r :: rs => ({ s with pttl := rs }, r)
  Dump s _ :=
    match s.dump with
    | [] => (s, .ok [])
    | r :: rs => ({ s with dump := rs }, r)
  Restore s _ _ _ :=
    match s.restore with
    | [] => (s, none)
    | r :: rs => ({ s with restore := rs }, r)

/-! ## Reading a trace -/

/-- The events of the iteration with index `i`. -/
def eventsAt (i : Nat) (tr : List Event) : List Event :=
  tr.filter (fun e => decide (e.idx = i))

/-- A call of `Restore` on the destination: the loop index, the arguments and
the reply. -/
structure RestoreCall where
  idx : Nat
  key : GoString
  ttl : Int
  value : GoString
  reply : Option GoError
  deriving DecidableEq, Repr

/-- The `Restore` calls of a trace, in order. -/
def restoreCalls (tr : List Event) : List RestoreCall :=
  tr.filterMap fun e =>
    match e with
    | .restore i key ttl value reply => some ⟨i, key, ttl, value, reply⟩
    | _ => none

/-- The durations returned by the successful `PTTL` calls of a trace. -/
def ttlReplies (tr : List Event) : List Int :=
  tr.filterMap fun e =>
    match e with
    | .pttl _ _ (.ok dur) => some dur
    | _ => none

/-- The values returned by the successful `Dump` calls of a trace. -/
def dumpReplies (tr : List Event) : List GoString :=
  tr.filterMap fun e =>
    match e with
    | .dump _ _ (.ok data) => some data
    | _ => none

/-- A call of `Dump`. -/
def Event.isDump : Event → Bool
  | .dump _ _ _ => true
  | _ => false

/-- A call of `PTTL`. -/
def Event.isPTTL : Event → Bool
  | .pttl _ _ _ => true
  | _ => false

/-- A call of `writeToFile` or of `Restore`. -/
def Event.isWriteOrRestore : Event → Bool
  | .write _ _ _ _ => true
  | .restore _ _ _ _ _ => true
  | _ => false

/-- A `COPIED KEY` progress line. -/
def Event.isProgress : Event → Bool
  | .print _ (.copiedKey _ _ _) => true
  | _ => false

/-- An event of a pass through `retryKey:` that ended in `goto retryKey` or in
`os.Exit(1)` before the dump succeeded: a `PTTL` call, a `Dump` call that
failed with an error other than `redis.Nil`, or the line printed for such a
failure. -/
def Event.isFailedPass : Event → Bool
  | .pttl _ _ _ => true
  | .dump _ _ (.err e) => decide (e ≠ .redisNil)
  | .print _ (.errorGettingTTL _ _) => true
  | .print _ (.errorDumpingKey _ e) => decide (e ≠ .redisNil)
  | _ => false

/-- From the world `w` on, `Dump` of `key` fails `m` times in a row with an
error other than `redis.Nil` and then succeeds, every `PTTL` of `key` made
before each of these calls succeeding. -/
def DumpFailsThenOk {W : Type} (st : Stores W) (key : GoString) : Nat → W → Prop
  | 0, w => ∃ w1 dur w2 data, st.PTTL w key = (w1, .ok dur) ∧ st.Dump w1 key = (w2, .ok data)
  | m + 1, w => ∃ w1 dur w2 err, st.PTTL w key = (w1, .ok dur) ∧
      st.Dump w1 key = (w2, .err err) ∧ err ≠ .redisNil ∧ DumpFailsThenOk st key m w2

/-- The last pass through `retryKey:` of an iteration that got as far as the
`Restore` call: the five events of the pass, and how the body is left for
each kind of reply. -/
def restoredPass (i total : Nat) (key : GoString) (reply : Option GoError) (line : Line)
    (ctl : Ctl) : Prop :=
  (reply = none ∧ line = .copiedKey (i + 1) total key ∧ ctl = .next) ∨
  (∃ err, reply = some err ∧ isBusyKey err = true ∧ line = .keyAlreadyExists key ∧ ctl = .next) ∨
  (∃ err, reply = some err ∧ isBusyKey err = false ∧ line = .errorRestoringKey err ∧ ctl = .exit)

/-- A successful `Dump`, a call of `writeToFile` or a call of `Restore`. -/
def Event.isTransferStep : Event → Bool
  | .dump _ _ (.ok _) => true
  | .write _ _ _ _ => true
  | .restore _ _ _ _ _ => true
  | _ => false

/-- Outcome (a) of an iteration with events `seg`: `Restore` was called once,
for `key`, with the last duration `PTTL` returned and the last value `Dump`
returned, and it returned no error. -/
def RestoredOk (j : Nat) (key : GoString) (seg : List Event) : Prop :=
  ∃ dur data, (ttlReplies seg).getLast? = some dur ∧ (dumpReplies seg).getLast? = some data ∧
    restoreCalls seg = [⟨j, key, dur, data, none⟩]

/-- Outcome (b): that one `Restore` call returned a `BUSYKEY` error. -/
def RestoreConflict (j : Nat) (key : GoString) (seg : List Event) : Prop :=
  ∃ dur data err, (ttlReplies seg).getLast? = some dur ∧
    (dumpReplies seg).getLast? = some data ∧
    restoreCalls seg = [⟨j, key, dur, data, some err⟩] ∧ isBusyKey err = true

/-- Outcome (c): `Dump` reported `redis.Nil` and `Restore` was not called. -/
def DumpNotFound (j : Nat) (key : GoString) (seg : List Event) : Prop :=
  Event.dump j key (.err .redisNil) ∈ seg ∧ restoreCalls seg = []

/-! ## Concrete scenarios -/

/-- A source whose `PTTL` fails on every call. -/
def ttlDown : Stores Unit where
  PTTL _ _ := ((), .err (.other "i/o timeout"))
  Dump _ _ := ((), .ok [])
  Restore _ _ _ _ := ((), none)

/-- Script: `PTTL` fails four times and then succeeds. -/
def ttlFailsFourTimes : Script :=
  ⟨[.err (.other "i/o timeout"), .err (.other "i/o timeout"), .err (.other "i/o timeout"),
    .err (.other "i/o timeout"), .ok 0], [.ok [49]], [none]⟩

/-- Script: every `PTTL` succeeds, `Dump` fails three times with a transient
error and then succeeds. -/
def dumpFailsThrice : Script :=
  ⟨[.ok 0, .ok 0, .ok 0, .ok 0, .ok 0],
    [.err (.other "i/o timeout"), .err (.other "i/o timeout"), .err (.other "i/o timeout"),
      .ok [49], .ok [50]], [none, none]⟩

/-- Script: every `PTTL` succeeds, `Dump` fails once with a transient error
and then succeeds. -/
def dumpFailsOnce : Script :=
  ⟨[.ok 0, .ok 0, .ok 0], [.err (.other "i/o timeout"), .ok [49], .ok [50]], [none, none]⟩

/-- Script for three keys: the first is copied, the second is read at the
second attempt and is already present at the destination, the third has
vanished from the source. -/
def threeKeys : Script :=
  ⟨[.ok (-1), .ok 5000000000, .ok 5000000000, .ok (-2)],
    [.ok [49], .err (.other "i/o timeout"), .ok [50], .err .redisNil],
    [none, some (.other "BUSYKEY Target key name already exists.")]⟩

/-- The keys `a`, `b`, `c`. -/
def keysABC : List GoString := [[97], [98], [99]]

/-- The keys `a`, `b`. -/
def keysAB : List GoString := [[97], [98]]

/-! ## Lemmas on the snapshot writer -/


theorem decodeMap_encodeStd (n : Nat) (h : n < 64) : decodeMap (encodeStd n) = some n := by
  interval_cases n <;> rfl

theorem encodeStd_ne_newline (n : Nat) : encodeStd n ≠ newline := by
  unfold encodeStd newline
  split_ifs <;> simp [Fin.ext_iff, Fin.ofNat] <;> omega

theorem decode_encode (v : List Byte) : DecodeString (EncodeToString v) = some v := by
  induction v using EncodeToString.induct with
  | case1 b0 b1 b2 rest ih =>
    have h0 := b0.isLt
    have h1 := b1.isLt
    have h2 := b2.isLt
    simp only [EncodeToString, DecodeString]
    rw [decodeMap_encodeStd _ (Nat.mod_lt _ (by norm_num)), decodeMap_encodeStd _ (Nat.mod_lt _ (by norm_num)),
      decodeMap_encodeStd _ (Nat.mod_lt _ (by norm_num)), decodeMap_encodeStd _ (Nat.mod_lt _ (by norm_num)), ih]
    simp only [Option.some.injEq, List.cons.injEq, and_true, Fin.ext_iff, Fin.ofNat]
    refine ⟨?_, ?_, ?_⟩ <;> omega
  | case2 b0 b1 =>
    have h0 := b0.isLt
    have h1 := b1.isLt
    simp only [EncodeToString, DecodeString]
    rw [decodeMap_encodeStd _ (Nat.mod_lt _ (by norm_num)), decodeMap_encodeStd _ (Nat.mod_lt _ (by norm_num)),
      decodeMap_encodeStd _ (Nat.mod_lt _ (by norm_num))]
    simp only [Option.some.injEq, List.cons.injEq, and_true, Fin.ext_iff, Fin.ofNat]
    refine ⟨?_, ?_⟩ <;> omega
  | case3 b0 =>
    have h0 := b0.isLt
    simp only [EncodeToString, DecodeString]
    rw [decodeMap_encodeStd _ (Nat.mod_lt _ (by norm_num)), decodeMap_encodeStd _ (Nat.mod_lt _ (by norm_num))]
    simp only [Option.some.injEq, List.cons.injEq, and_true, Fin.ext_iff, Fin.ofNat]
    omega
  | case4 => rfl

theorem newline_not_mem_encode (v : List Byte) : newline ∉ EncodeToString v := by
  induction v using EncodeToString.induct with
  | case1 b0 b1 b2 rest ih =>
    simp only [EncodeToString, List.mem_cons, not_or]
    exact ⟨(encodeStd_ne_newline _).symm, (encodeStd_ne_newline _).symm, (encodeStd_ne_newline _).symm,
      (encodeStd_ne_newline _).symm, ih⟩
  | case2 b0 b1 =>
    simp only [EncodeToString, List.mem_cons, not_or, List.not_mem_nil, not_false_eq_true, and_true]
    exact ⟨(encodeStd_ne_newline _).symm, (encodeStd_ne_newline _).symm, (encodeStd_ne_newline _).symm⟩
  | case3 b0 =>
    simp only [EncodeToString, List.mem_cons, not_or, List.not_mem_nil, not_false_eq_true, and_true]
    exact ⟨(encodeStd_ne_newline _).symm, (encodeStd_ne_newline _).symm⟩
  | case4 => simp [EncodeToString]


theorem writeToFile_file (pre key value : GoString) (ttl : Int) :
    writeToFile (.file pre) key value ttl = .file (pre ++ record key value ttl) := by
  unfold writeToFile record ttlText
  by_cases h : ttl ≤ 0 <;> simp [Writer.isNil, Writer.Write, h, List.append_assoc]

theorem splitLines_append_newline (a rest : GoString) (h : newline ∉ a) :
    splitLines (a ++ newline :: rest) = a :: splitLines rest := by
  induction a with
  | nil => simp [splitLines]
  | cons b a ih =>
    simp only [List.mem_cons, not_or] at h
    have hb : b ≠ newline := fun e => h.1 e.symm
    simp [splitLines, hb, ih h.2]

theorem splitLines_record (key value : GoString) (ttl : Int) (hkey : newline ∉ key)
    (httl : newline ∉ ttlText ttl) (hval : newline ∉ EncodeToString value) :
    splitLines (record key value ttl) = [key, ttlText ttl, EncodeToString value, []] := by
  have e : record key value ttl
      = key ++ newline :: (ttlText ttl ++ newline :: (EncodeToString value ++ newline :: [])) := by
    simp [record, List.append_assoc]
  rw [e, splitLines_append_newline _ _ hkey, splitLines_append_newline _ _ httl,
    splitLines_append_newline _ _ hval]
  rfl

theorem digitByte_val (d : Nat) : (digitByte d).val = 48 + d % 10 := by
  simp only [digitByte, Fin.ofNat]
  omega

theorem formatBits_digits (fuel n : Nat) (acc : GoString)
    (hacc : ∀ b ∈ acc, 48 ≤ b.val ∧ b.val ≤ 57) :
    ∀ b ∈ formatBits fuel n acc, 48 ≤ b.val ∧ b.val ≤ 57 := by
  induction fuel generalizing n acc with
  | zero => simpa [formatBits] using hacc
  | succ fuel ih =>
    have hacc1 : ∀ b ∈ digitByte n :: acc, 48 ≤ b.val ∧ b.val ≤ 57 := by
      intro b hb
      rcases List.mem_cons.mp hb with rfl | hb
      · rw [digitByte_val]; omega
      · exact hacc b hb
    unfold formatBits
    split
    · exact hacc1
    · exact ih _ _ hacc1

theorem FormatUint_digits (n : Nat) : ∀ b ∈ FormatUint n, 48 ≤ b.val ∧ b.val ≤ 57 :=
  formatBits_digits _ _ _ (by simp)

theorem decimalValue_foldl (l : GoString) (a : Nat) :
    l.foldl (fun acc b => 10 * acc + (b.val - 48)) a = a * 10 ^ l.length + decimalValue l := by
  induction l generalizing a with
  | nil => simp [decimalValue]
  | cons b l ih =>
    simp only [List.foldl_cons, decimalValue, List.length_cons]
    rw [ih, ih (10 * 0 + (b.val - 48))]
    ring

theorem decimalValue_cons_digit (d : Nat) (acc : GoString) :
    decimalValue (digitByte d :: acc) = d % 10 * 10 ^ acc.length + decimalValue acc := by
  have h := decimalValue_foldl acc (10 * 0 + ((digitByte d).val - 48))
  rw [digitByte_val] at h
  simp only [decimalValue, List.foldl_cons] at h ⊢
  rw [digitByte_val, h]
  congr 2
  omega

theorem decimalValue_formatBits (fuel n : Nat) (acc : GoString) (h : n ≤ fuel) (hf : 0 < fuel) :
    decimalValue (formatBits fuel n acc) = n * 10 ^ acc.length + decimalValue acc := by
  induction fuel generalizing n acc with
  | zero => omega
  | succ fuel ih =>
    unfold formatBits
    split
    · next h0 =>
      rw [decimalValue_cons_digit]
      have : n % 10 = n := by omega
      rw [this]
    · next h0 =>
      rw [ih _ _ (by omega) (by omega), decimalValue_cons_digit, List.length_cons, pow_succ]
      have hn : n = 10 * (n / 10) + n % 10 := (Nat.div_add_mod n 10).symm
      generalize n / 10 = q at *
      generalize n % 10 = r at *
      subst hn
      ring

theorem decimalValue_FormatUint (n : Nat) : decimalValue (FormatUint n) = n := by
  unfold FormatUint
  rw [decimalValue_formatBits _ _ _ (by omega) (by omega)]
  simp [decimalValue]

theorem wrap64_of_range (x : Int) (h1 : -2 ^ 63 ≤ x) (h2 : x < 2 ^ 63) : wrap64 x = x := by
  unfold wrap64
  norm_num at h1 h2 ⊢
  omega

theorem Milliseconds_mul_exact (ttl : Int) (h0 : 0 < ttl) (h2 : ttl < 2 ^ 63) :
    wrap64 (Milliseconds ttl * 1000) = ttl / 1000000 * 1000 := by
  have e : Milliseconds ttl = ttl / 1000000 := by
    unfold Milliseconds
    exact Int.tdiv_eq_ediv (le_of_lt h0) (by norm_num)
  rw [e]
  apply wrap64_of_range <;> norm_num at h2 ⊢ <;> omega

theorem ttlText_digits (ttl : Int) (h1 : -2 ^ 63 ≤ ttl) (h2 : ttl < 2 ^ 63) :
    ∀ b ∈ ttlText ttl, 48 ≤ b.val ∧ b.val ≤ 57 := by
  unfold ttlText
  split
  · intro b hb
    simp at hb
    subst hb
    decide
  · next h =>
    rw [Milliseconds_mul_exact ttl (by omega) h2]
    have hnn : ¬ (ttl / 1000000 * 1000 < 0) := by omega
    simp only [FormatInt, hnn, if_false]
    exact FormatUint_digits _

theorem FormatInt_no_newline (i : Int) : newline ∉ FormatInt i := by
  intro h
  unfold FormatInt at h
  split at h
  · rcases List.mem_cons.mp h with e | h
    · exact absurd e (by decide)
    · exact absurd (FormatUint_digits _ _ h) (by decide)
  · exact absurd (FormatUint_digits _ _ h) (by decide)

theorem ttlText_no_newline (ttl : Int) : newline ∉ ttlText ttl := by
  unfold ttlText
  split
  · decide
  · exact FormatInt_no_newline _

theorem count_newline_record (key value : GoString) (ttl : Int) (hkey : newline ∉ key) :
    (record key value ttl).count newline = 3 := by
  simp [record, List.count_append, List.count_eq_zero_of_not_mem hkey,
    List.count_eq_zero_of_not_mem (ttlText_no_newline ttl),
    List.count_eq_zero_of_not_mem (newline_not_mem_encode value)]

theorem getLast_record (key value : GoString) (ttl : Int) :
    (record key value ttl).getLast? = some newline := by
  unfold record
  rw [← List.append_assoc, List.getLast?_append]
  simp

theorem writeRecords_file (rs : List (GoString × GoString × Int)) (pre : GoString)
    (hkeys : ∀ r ∈ rs, newline ∉ r.1) :
    ∃ out, rs.foldl (fun w r => writeToFile w r.1 r.2.1 r.2.2) (Writer.file pre)
        = .file (pre ++ out) ∧
      out.count newline = 3 * rs.length ∧ (rs ≠ [] → out.getLast? = some newline) := by
  induction rs using List.reverseRecOn generalizing pre with
  | nil => exact ⟨[], by simp⟩
  | append_singleton rs r ih =>
    obtain ⟨out, h1, h2, _⟩ := ih pre (fun x hx => hkeys x (by simp [hx]))
    refine ⟨out ++ record r.1 r.2.1 r.2.2, ?_, ?_, ?_⟩
    · rw [List.foldl_append, h1]
      simp [writeToFile_file, List.append_assoc]
    · rw [List.count_append, h2, count_newline_record _ _ _ (hkeys r (by simp))]
      simp
      omega
    · intro _
      rw [List.getLast?_append, getLast_record]
      rfl

/-! ## The claims on the snapshot writer -/

/-- C6: for a key without a newline, any value bytes and any TTL, the bytes
`writeToFile` adds to an open writer split at newlines into the key, a second
line and a third line, and the third line decodes as unpadded standard base64
to exactly the value. -/
theorem writeToFile_snapshot_fidelity (pre key value : GoString) (ttl : Int)
    (hkey : newline ∉ key) :
    ∃ out line2 line3, writeToFile (.file pre) key value ttl = .file (pre ++ out) ∧
      splitLines out = [key, line2, line3, []] ∧ DecodeString line3 = some value :=
  ⟨record key value ttl, ttlText ttl, EncodeToString value, writeToFile_file pre key value ttl,
    splitLines_record key value ttl hkey (ttlText_no_newline ttl) (newline_not_mem_encode value),
    decode_encode value⟩

/-- Witness of C6: the key `a`, the value bytes `ff 00` (not valid UTF-8) and a
TTL of five seconds. -/
theorem writeToFile_snapshot_fidelity_witness :
    newline ∉ ([97] : GoString) ∧
    ∃ out line2 line3, writeToFile (.file []) [97] [255, 0] 5000000000 = .file ([] ++ out) ∧
      splitLines out = [[97], line2, line3, []] ∧ DecodeString line3 = some [255, 0] :=
  ⟨by decide, writeToFile_snapshot_fidelity [] [97] [255, 0] 5000000000 (by decide)⟩

/-- C8: for a TTL in the range of a signed 64-bit nanosecond count, the second
line of the record consists of decimal digits only (no sign); it is `0` when
the TTL is zero or negative, and otherwise it is the decimal text of the exact
product (TTL in whole milliseconds) x 1000, which the 64-bit multiplication of
the code reaches without wrapping. -/
theorem writeToFile_ttl_line (pre key value : GoString) (ttl : Int)
    (hkey : newline ∉ key) (hlo : -2 ^ 63 ≤ ttl) (hhi : ttl < 2 ^ 63) :
    ∃ out line1 line2 line3, writeToFile (.file pre) key value ttl = .file (pre ++ out) ∧
      splitLines out = [line1, line2, line3, []] ∧
      (∀ b ∈ line2, 48 ≤ b.val ∧ b.val ≤ 57) ∧
      (ttl ≤ 0 → line2 = [48]) ∧
      (0 < ttl → wrap64 (Milliseconds ttl * 1000) = ttl / 1000000 * 1000 ∧
        line2 = FormatInt (ttl / 1000000 * 1000) ∧
        (decimalValue line2 : Int) = ttl / 1000000 * 1000) := by
  refine ⟨record key value ttl, key, ttlText ttl, EncodeToString value,
    writeToFile_file pre key value ttl,
    splitLines_record key value ttl hkey (ttlText_no_newline ttl) (newline_not_mem_encode value),
    ttlText_digits ttl hlo hhi, ?_, ?_⟩
  · intro h
    simp [ttlText, h]
  · intro h
    have hx := Milliseconds_mul_exact ttl h hhi
    have hnn : ¬ (ttl / 1000000 * 1000 < 0) := by omega
    have hle : ¬ ttl ≤ 0 := by omega
    refine ⟨hx, by simp [ttlText, hle, hx], ?_⟩
    simp only [ttlText, hle, if_false, hx, FormatInt, hnn, decimalValue_FormatUint]
    omega

/-- Witness of C8: the largest duration, `2^63 - 1` nanoseconds. -/
theorem writeToFile_ttl_line_witness :
    newline ∉ ([97] : GoString) ∧ (-2 ^ 63 : Int) ≤ 9223372036854775807 ∧
    (9223372036854775807 : Int) < 2 ^ 63 ∧
    ∃ out line1 line2 line3,
      writeToFile (.file []) [97] [49] 9223372036854775807 = .file ([] ++ out) ∧
      splitLines out = [line1, line2, line3, []] ∧
      (∀ b ∈ line2, 48 ≤ b.val ∧ b.val ≤ 57) ∧
      ((9223372036854775807 : Int) ≤ 0 → line2 = [48]) ∧
      ((0 : Int) < 9223372036854775807 →
        wrap64 (Milliseconds 9223372036854775807 * 1000) = 9223372036854775807 / 1000000 * 1000 ∧
        line2 = FormatInt (9223372036854775807 / 1000000 * 1000) ∧
        (decimalValue line2 : Int) = 9223372036854775807 / 1000000 * 1000) :=
  ⟨by decide, by decide, by decide,
    writeToFile_ttl_line [] [97] [49] 9223372036854775807 (by decide) (by decide) (by decide)⟩

/-- C9: for a key without a newline, one call of `writeToFile` on an open
writer adds exactly three newline-terminated lines: the key, a second and a
third line without newlines, so three newline bytes with a newline last; and
`n` records written one after the other hold exactly `3 n` newline bytes and
end with a newline. -/
theorem writeToFile_record_shape (pre key value : GoString) (ttl : Int)
    (rs : List (GoString × GoString × Int))
    (hkey : newline ∉ key) (hkeys : ∀ r ∈ rs, newline ∉ r.1) :
    (∃ out line2 line3, writeToFile (.file pre) key value ttl = .file (pre ++ out) ∧
      out = key ++ [newline] ++ line2 ++ [newline] ++ line3 ++ [newline] ∧
      newline ∉ line2 ∧ newline ∉ line3 ∧
      out.count newline = 3 ∧ out.getLast? = some newline) ∧
    (∃ out, rs.foldl (fun w r => writeToFile w r.1 r.2.1 r.2.2) (Writer.file pre)
        = .file (pre ++ out) ∧
      out.count newline = 3 * rs.length ∧ (rs ≠ [] → out.getLast? = some newline)) :=
  ⟨⟨record key value ttl, ttlText ttl, EncodeToString value, writeToFile_file pre key value ttl,
    by simp [record, List.append_assoc], ttlText_no_newline ttl, newline_not_mem_encode value,
    count_newline_record key value ttl hkey, getLast_record key value ttl⟩,
    writeRecords_file rs pre hkeys⟩

/-- Witness of C9: one record, then two records in a row. -/
theorem writeToFile_record_shape_witness :
    newline ∉ ([97] : GoString) ∧
    (∀ r ∈ ([([97], [49], 0), ([98], [50], 5000000000)] : List (GoString × GoString × Int)),
      newline ∉ r.1) ∧
    (∃ out line2 line3, writeToFile (.file []) [97] [49] 0 = .file ([] ++ out) ∧
      out = [97] ++ [newline] ++ line2 ++ [newline] ++ line3 ++ [newline] ∧
      newline ∉ line2 ∧ newline ∉ line3 ∧
      out.count newline = 3 ∧ out.getLast? = some newline) ∧
    (∃ out, ([([97], [49], 0), ([98], [50], 5000000000)] : List (GoString × GoString × Int)).foldl
        (fun w r => writeToFile w r.1 r.2.1 r.2.2) (Writer.file [])
        = .file ([] ++ out) ∧
      out.count newline
        = 3 * ([([97], [49], 0), ([98], [50], 5000000000)] : List (GoString × GoString × Int)).length ∧
      (([([97], [49], 0), ([98], [50], 5000000000)] : List (GoString × GoString × Int)) ≠ [] →
        out.getLast? = some newline)) :=
  ⟨by decide, by decide,
    writeToFile_record_shape [] [97] [49] 0 [([97], [49], 0), ([98], [50], 5000000000)]
      (by decide) (by decide)⟩

/-! ## Lemmas on the transfer loop -/

theorem Run.after_nil {W : Type} (r : Run W) : r.after [] = r := by
  cases r; rfl

section Body

variable {W : Type} (st : Stores W) (i total : Nat) (key : GoString)

theorem retryKey_ttl_retry (fuel retryCount : Nat) (w w1 : W) (dkeys : Writer) (err : GoError)
    (h : st.PTTL w key = (w1, .err err)) (hc : retryCount < 3) :
    retryKey st i total key (fuel + 1) retryCount w dkeys
      = (retryKey st i total key fuel retryCount w1 dkeys).after
          [.pttl i key (.err err), .print i (.errorGettingTTL key err)] := by
  rw [retryKey]; simp [h, hc]

theorem retryKey_ttl_exit (fuel retryCount : Nat) (w w1 : W) (dkeys : Writer) (err : GoError)
    (h : st.PTTL w key = (w1, .err err)) (hc : ¬ retryCount < 3) :
    retryKey st i total key (fuel + 1) retryCount w dkeys
      = ⟨w1, dkeys, [.pttl i key (.err err), .print i (.errorGettingTTL key err)], .exit⟩ := by
  rw [retryKey]; simp [h, hc]

theorem retryKey_dump_nil (fuel retryCount : Nat) (w w1 w2 : W) (dkeys : Writer) (dur : Int)
    (h : st.PTTL w key = (w1, .ok dur)) (h2 : st.Dump w1 key = (w2, .err .redisNil)) :
    retryKey st i total key (fuel + 1) retryCount w dkeys
      = ⟨w2, dkeys, [.pttl i key (.ok dur), .dump i key (.err .redisNil),
          .print i (.errorDumpingKey key .redisNil)], .next⟩ := by
  rw [retryKey]; simp [h, h2]

theorem retryKey_dump_retry (fuel retryCount : Nat) (w w1 w2 : W) (dkeys : Writer) (dur : Int)
    (err : GoError) (h : st.PTTL w key = (w1, .ok dur)) (h2 : st.Dump w1 key = (w2, .err err))
    (hn : err ≠ .redisNil) (hc : retryCount + 1 < 3) :
    retryKey st i total key (fuel + 1) retryCount w dkeys
      = (retryKey st i total key fuel (retryCount + 1) w2 dkeys).after
          [.pttl i key (.ok dur), .dump i key (.err err), .print i (.errorDumpingKey key err)] := by
  rw [retryKey]; simp [h, h2, hn, hc]

theorem retryKey_dump_exit (fuel retryCount : Nat) (w w1 w2 : W) (dkeys : Writer) (dur : Int)
    (err : GoError) (h : st.PTTL w key = (w1, .ok dur)) (h2 : st.Dump w1 key = (w2, .err err))
    (hn : err ≠ .redisNil) (hc : ¬ retryCount + 1 < 3) :
    retryKey st i total key (fuel + 1) retryCount w dkeys
      = ⟨w2, dkeys, [.pttl i key (.ok dur), .dump i key (.err err),
          .print i (.errorDumpingKey key err)], .exit⟩ := by
  rw [retryKey]; simp [h, h2, hn, hc]

theorem retryKey_restore_busy (fuel retryCount : Nat) (w w1 w2 w3 : W) (dkeys : Writer)
    (dur : Int) (data : GoString) (err : GoError)
    (h : st.PTTL w key = (w1, .ok dur)) (h2 : st.Dump w1 key = (w2, .ok data))
    (h3 : st.Restore w2 key dur data = (w3, some err)) (hb : isBusyKey err = true) :
    retryKey st i total key (fuel + 1) retryCount w dkeys
      = ⟨w3, writeToFile dkeys key data dur,
          [.pttl i key (.ok dur), .dump i key (.ok data), .write i key data dur,
            .restore i key dur data (some err), .print i (.keyAlreadyExists key)], .next⟩ := by
  rw [retryKey]; simp [h, h2, h3, hb]

theorem retryKey_restore_fail (fuel retryCount : Nat) (w w1 w2 w3 : W) (dkeys : Writer)
    (dur : Int) (data : GoString) (err : GoError)
    (h : st.PTTL w key = (w1, .ok dur)) (h2 : st.Dump w1 key = (w2, .ok data))
    (h3 : st.Restore w2 key dur data = (w3, some err)) (hb : ¬ isBusyKey err = true) :
    retryKey st i total key (fuel + 1) retryCount w dkeys
      = ⟨w3, writeToFile dkeys key data dur,
          [.pttl i key (.ok dur), .dump i key (.ok data), .write i key data dur,
            .restore i key dur data (some err), .print i (.errorRestoringKey err)], .exit⟩ := by
  rw [retryKey]; simp [h, h2, h3, hb]

theorem retryKey_restore_ok (fuel retryCount : Nat) (w w1 w2 w3 : W) (dkeys : Writer)
    (dur : Int) (data : GoString)
    (h : st.PTTL w key = (w1, .ok dur)) (h2 : st.Dump w1 key = (w2, .ok data))
    (h3 : st.Restore w2 key dur data = (w3, none)) :
    retryKey st i total key (fuel + 1) retryCount w dkeys
      = ⟨w3, writeToFile dkeys key data dur,
          [.pttl i key (.ok dur), .dump i key (.ok data), .write i key data dur,
            .restore i key dur data none, .print i (.copiedKey (i + 1) total key)], .next⟩ := by
  rw [retryKey]; simp [h, h2, h3]

/-- The shape of one iteration: passes that failed, followed by nothing (the
body is still running, or it exited on a failed read), by the pass in which
`Dump` said `redis.Nil`, or by the pass that reached `Restore`. -/
theorem retryKey_shape (fuel retryCount : Nat) (w : W) (dkeys : Writer) :
    ∃ pre, (∀ e ∈ pre, e.isFailedPass = true ∧ e.idx = i) ∧
      (((retryKey st i total key fuel retryCount w dkeys).events = pre ∧
          (retryKey st i total key fuel retryCount w dkeys).dkeys = dkeys ∧
          (retryKey st i total key fuel retryCount w dkeys).ctl ≠ .next) ∨
        (∃ dur, (retryKey st i total key fuel retryCount w dkeys).events
            = pre ++ [.pttl i key (.ok dur), .dump i key (.err .redisNil),
                .print i (.errorDumpingKey key .redisNil)] ∧
          (retryKey st i total key fuel retryCount w dkeys).dkeys = dkeys ∧
          (retryKey st i total key fuel retryCount w dkeys).ctl = .next) ∨
        (∃ dur data reply line, (retryKey st i total key fuel retryCount w dkeys).events
            = pre ++ [.pttl i key (.ok dur), .dump i key (.ok data), .write i key data dur,
                .restore i key dur data reply, .print i line] ∧
          (retryKey st i total key fuel retryCount w dkeys).dkeys
            = writeToFile dkeys key data dur ∧
          restoredPass i total key reply line
            (retryKey st i total key fuel retryCount w dkeys).ctl)) := by
  induction fuel generalizing retryCount w with
  | zero => exact ⟨[], by simp, Or.inl (by simp [retryKey])⟩
  | succ fuel ih =>
    rcases h : st.PTTL w key with ⟨w1, dur | err⟩
    · rcases h2 : st.Dump w1 key with ⟨w2, data | err⟩
      · rcases h3 : st.Restore w2 key dur data with ⟨w3, _ | err⟩
        · refine ⟨[], by simp, Or.inr (Or.inr ⟨dur, data, none, .copiedKey (i + 1) total key, ?_, ?_, ?_⟩)⟩
          · rw [retryKey_restore_ok st i total key fuel retryCount w w1 w2 w3 dkeys dur data h h2 h3]
            rfl
          · rw [retryKey_restore_ok st i total key fuel retryCount w w1 w2 w3 dkeys dur data h h2 h3]
          · rw [retryKey_restore_ok st i total key fuel retryCount w w1 w2 w3 dkeys dur data h h2 h3]
            exact Or.inl ⟨rfl, rfl, rfl⟩
        · by_cases hb : isBusyKey err = true
          · have e := retryKey_restore_busy st i total key fuel retryCount w w1 w2 w3 dkeys dur
              data err h h2 h3 hb
            refine ⟨[], by simp, Or.inr (Or.inr ⟨dur, data, some err, .keyAlreadyExists key, ?_, ?_, ?_⟩)⟩
            · rw [e]; rfl
            · rw [e]
            · rw [e]; exact Or.inr (Or.inl ⟨err, rfl, hb, rfl, rfl⟩)
          · have e := retryKey_restore_fail st i total key fuel retryCount w w1 w2 w3 dkeys dur
              data err h h2 h3 hb
            refine ⟨[], by simp, Or.inr (Or.inr ⟨dur, data, some err, .errorRestoringKey err, ?_, ?_, ?_⟩)⟩
            · rw [e]; rfl
            · rw [e]
            · rw [e]; exact Or.inr (Or.inr ⟨err, rfl, by simpa using hb, rfl, rfl⟩)
      · by_cases hn : err = .redisNil
        · subst hn
          have e := retryKey_dump_nil st i total key fuel retryCount w w1 w2 dkeys dur h h2
          refine ⟨[], by simp, Or.inr (Or.inl ⟨dur, ?_, ?_, ?_⟩)⟩
          · rw [e]; rfl
          · rw [e]
          · rw [e]
        · have hnoise : ∀ e ∈ [Event.pttl i key (.ok dur), .dump i key (.err err),
              .print i (.errorDumpingKey key err)], e.isFailedPass = true ∧ e.idx = i := by
            intro e he
            simp at he
            rcases he with rfl | rfl | rfl <;> simp [Event.isFailedPass, Event.idx, hn]
          by_cases hc : retryCount + 1 < 3
          · have e := retryKey_dump_retry st i total key fuel retryCount w w1 w2 dkeys dur err
              h h2 hn hc
            obtain ⟨pre, hpre, hsh⟩ := ih (retryCount + 1) w2
            refine ⟨[.pttl i key (.ok dur), .dump i key (.err err),
              .print i (.errorDumpingKey key err)] ++ pre, ?_, ?_⟩
            · intro x hx
              rcases List.mem_append.mp hx with hx | hx
              · exact hnoise x hx
              · exact hpre x hx
            · rw [e]
              rcases hsh with ⟨h1, h2, h3⟩ | ⟨d, h1, h2, h3⟩ | ⟨d, v, r, l, h1, h2, h3⟩
              · exact Or.inl ⟨by simp [KeyRun.after, h1], h2, h3⟩
              · exact Or.inr (Or.inl ⟨d, by simp [KeyRun.after, h1], h2, h3⟩)
              · exact Or.inr (Or.inr ⟨d, v, r, l, by simp [KeyRun.after, h1], h2, h3⟩)
          · have e := retryKey_dump_exit st i total key fuel retryCount w w1 w2 dkeys dur err
              h h2 hn hc
            refine ⟨_, hnoise, Or.inl ?_⟩
            rw [e]
            exact ⟨rfl, rfl, by simp⟩
    · have hnoise : ∀ e ∈ [Event.pttl i key (.err err), .print i (.errorGettingTTL key err)],
          e.isFailedPass = true ∧ e.idx = i := by
        intro e he
        simp at he
        rcases he with rfl | rfl <;> simp [Event.isFailedPass, Event.idx]
      by_cases hc : retryCount < 3
      · have e := retryKey_ttl_retry st i total key fuel retryCount w w1 dkeys err h hc
        obtain ⟨pre, hpre, hsh⟩ := ih retryCount w1
        refine ⟨[.pttl i key (.err err), .print i (.errorGettingTTL key err)] ++ pre, ?_, ?_⟩
        · intro x hx
          rcases List.mem_append.mp hx with hx | hx
          · exact hnoise x hx
          · exact hpre x hx
        · rw [e]
          rcases hsh with ⟨h1, h2, h3⟩ | ⟨d, h1, h2, h3⟩ | ⟨d, v, r, l, h1, h2, h3⟩
          · exact Or.inl ⟨by simp [KeyRun.after, h1], h2, h3⟩
          · exact Or.inr (Or.inl ⟨d, by simp [KeyRun.after, h1], h2, h3⟩)
          · exact Or.inr (Or.inr ⟨d, v, r, l, by simp [KeyRun.after, h1], h2, h3⟩)
      · have e := retryKey_ttl_exit st i total key fuel retryCount w w1 dkeys err h hc
        refine ⟨_, hnoise, Or.inl ?_⟩
        rw [e]
        exact ⟨rfl, rfl, by simp⟩

theorem retryKey_idx (fuel retryCount : Nat) (w : W) (dkeys : Writer) :
    ∀ e ∈ (retryKey st i total key fuel retryCount w dkeys).events, e.idx = i := by
  obtain ⟨pre, hpre, hsh⟩ := retryKey_shape st i total key fuel retryCount w dkeys
  intro e he
  rcases hsh with ⟨h1, _, _⟩ | ⟨d, h1, _, _⟩ | ⟨d, v, r, l, h1, _, _⟩ <;> rw [h1] at he
  · exact (hpre e he).2
  · rcases List.mem_append.mp he with he | he
    · exact (hpre e he).2
    · simp at he; rcases he with rfl | rfl | rfl <;> rfl
  · rcases List.mem_append.mp he with he | he
    · exact (hpre e he).2
    · simp at he; rcases he with rfl | rfl | rfl | rfl | rfl <;> rfl

theorem retryKey_head (fuel retryCount : Nat) (w : W) (dkeys : Writer) :
    ∃ reply rest, (retryKey st i total key (fuel + 1) retryCount w dkeys).events
      = Event.pttl i key reply :: rest := by
  rcases h : st.PTTL w key with ⟨w1, dur | err⟩
  · rcases h2 : st.Dump w1 key with ⟨w2, data | err⟩
    · rcases h3 : st.Restore w2 key dur data with ⟨w3, _ | err⟩
      · rw [retryKey_restore_ok st i total key fuel retryCount w w1 w2 w3 dkeys dur data h h2 h3]
        exact ⟨_, _, rfl⟩
      · by_cases hb : isBusyKey err = true
        · rw [retryKey_restore_busy st i total key fuel retryCount w w1 w2 w3 dkeys dur
            data err h h2 h3 hb]
          exact ⟨_, _, rfl⟩
        · rw [retryKey_restore_fail st i total key fuel retryCount w w1 w2 w3 dkeys dur
            data err h h2 h3 hb]
          exact ⟨_, _, rfl⟩
    · by_cases hn : err = .redisNil
      · subst hn
        rw [retryKey_dump_nil st i total key fuel retryCount w w1 w2 dkeys dur h h2]
        exact ⟨_, _, rfl⟩
      · by_cases hc : retryCount + 1 < 3
        · rw [retryKey_dump_retry st i total key fuel retryCount w w1 w2 dkeys dur err h h2 hn hc]
          exact ⟨_, _, rfl⟩
        · rw [retryKey_dump_exit st i total key fuel retryCount w w1 w2 dkeys dur err h h2 hn hc]
          exact ⟨_, _, rfl⟩
  · by_cases hc : retryCount < 3
    · rw [retryKey_ttl_retry st i total key fuel retryCount w w1 dkeys err h hc]
      exact ⟨_, _, rfl⟩
    · rw [retryKey_ttl_exit st i total key fuel retryCount w w1 dkeys err h hc]
      exact ⟨_, _, rfl⟩

end Body

section Loop

variable {W : Type} (st : Stores W) (fuel : Nat) (skipKey : Int) (total : Nat)

theorem mainLoop_skip (key : GoString) (rest : List GoString) (i : Nat) (w : W) (dkeys : Writer)
    (h : (i : Int) < skipKey) :
    mainLoop st fuel skipKey total (key :: rest) i w dkeys
      = mainLoop st fuel skipKey total rest (i + 1) w dkeys := by
  rw [mainLoop]; simp [h]

theorem mainLoop_next (key : GoString) (rest : List GoString) (i : Nat) (w : W) (dkeys : Writer)
    (h : ¬ (i : Int) < skipKey) (hc : (retryKey st i total key fuel 0 w dkeys).ctl = .next) :
    mainLoop st fuel skipKey total (key :: rest) i w dkeys
      = (mainLoop st fuel skipKey total rest (i + 1)
          (retryKey st i total key fuel 0 w dkeys).world
          (retryKey st i total key fuel 0 w dkeys).dkeys).after
          (retryKey st i total key fuel 0 w dkeys).events := by
  rw [mainLoop]
  rcases hk : retryKey st i total key fuel 0 w dkeys with ⟨w1, d1, out, ctl⟩
  rw [hk] at hc
  simp only at hc
  subst hc
  simp [h]

theorem mainLoop_exit (key : GoString) (rest : List GoString) (i : Nat) (w : W) (dkeys : Writer)
    (h : ¬ (i : Int) < skipKey) (hc : (retryKey st i total key fuel 0 w dkeys).ctl = .exit) :
    mainLoop st fuel skipKey total (key :: rest) i w dkeys
      = ⟨(retryKey st i total key fuel 0 w dkeys).world,
          (retryKey st i total key fuel 0 w dkeys).dkeys,
          (retryKey st i total key fuel 0 w dkeys).events, .fatal⟩ := by
  rw [mainLoop]
  rcases hk : retryKey st i total key fuel 0 w dkeys with ⟨w1, d1, out, ctl⟩
  rw [hk] at hc
  simp only at hc
  subst hc
  simp [h]

theorem mainLoop_running (key : GoString) (rest : List GoString) (i : Nat) (w : W)
    (dkeys : Writer) (h : ¬ (i : Int) < skipKey)
    (hc : (retryKey st i total key fuel 0 w dkeys).ctl = .running) :
    mainLoop st fuel skipKey total (key :: rest) i w dkeys
      = ⟨(retryKey st i total key fuel 0 w dkeys).world,
          (retryKey st i total key fuel 0 w dkeys).dkeys,
          (retryKey st i total key fuel 0 w dkeys).events, .running⟩ := by
  rw [mainLoop]
  rcases hk : retryKey st i total key fuel 0 w dkeys with ⟨w1, d1, out, ctl⟩
  rw [hk] at hc
  simp only at hc
  subst hc
  simp [h]

/-- Every event of the loop over `keys` from index `i` on belongs to one of
these keys, and to none that `-skip` passes over. -/
theorem mainLoop_idx (keys : List GoString) (i : Nat) (w : W) (dkeys : Writer) :
    ∀ e ∈ (mainLoop st fuel skipKey total keys i w dkeys).trace,
      i ≤ e.idx ∧ e.idx < i + keys.length ∧ ¬ ((e.idx : Int) < skipKey) := by
  induction keys generalizing i w dkeys with
  | nil => simp [mainLoop]
  | cons key rest ih =>
    intro e he
    by_cases hs : (i : Int) < skipKey
    · rw [mainLoop_skip st fuel skipKey total key rest i w dkeys hs] at he
      have := ih (i + 1) w dkeys e he
      simp only [List.length_cons]
      omega
    · have hidx := retryKey_idx st i total key fuel 0 w dkeys
      have hhere : ∀ x ∈ (retryKey st i total key fuel 0 w dkeys).events,
          i ≤ x.idx ∧ x.idx < i + (key :: rest).length ∧ ¬ ((x.idx : Int) < skipKey) := by
        intro x hx
        rw [hidx x hx]
        simp only [List.length_cons]
        exact ⟨le_refl _, by omega, hs⟩
      rcases hc : (retryKey st i total key fuel 0 w dkeys).ctl with _ | _ | _
      · rw [mainLoop_next st fuel skipKey total key rest i w dkeys hs hc] at he
        simp only [Run.after, List.mem_append] at he
        rcases he with he | he
        · exact hhere e he
        · have := ih (i + 1) _ _ e he
          simp only [List.length_cons]
          omega
      · rw [mainLoop_exit st fuel skipKey total key rest i w dkeys hs hc] at he
        exact hhere e he
      · rw [mainLoop_running st fuel skipKey total key rest i w dkeys hs hc] at he
        exact hhere e he

/-- The loop over `ks1 ++ ks2` is the loop over `ks1` followed, when that one
ran to its end, by the loop over `ks2`. -/
theorem mainLoop_append (ks1 ks2 : List GoString) (i : Nat) (w : W) (dkeys : Writer) :
    mainLoop st fuel skipKey total (ks1 ++ ks2) i w dkeys
      = if (mainLoop st fuel skipKey total ks1 i w dkeys).result = .success then
          (mainLoop st fuel skipKey total ks2 (i + ks1.length)
            (mainLoop st fuel skipKey total ks1 i w dkeys).world
            (mainLoop st fuel skipKey total ks1 i w dkeys).dkeys).after
            (mainLoop st fuel skipKey total ks1 i w dkeys).trace
        else mainLoop st fuel skipKey total ks1 i w dkeys := by
  induction ks1 generalizing i w dkeys with
  | nil => simp [mainLoop, Run.after_nil]
  | cons key rest ih =>
    by_cases hs : (i : Int) < skipKey
    · rw [List.cons_append, mainLoop_skip st fuel skipKey total key _ i w dkeys hs,
        mainLoop_skip st fuel skipKey total key _ i w dkeys hs, ih]
      simp only [List.length_cons]
      rw [show i + 1 + rest.length = i + (rest.length + 1) by omega]
    · rcases hc : (retryKey st i total key fuel 0 w dkeys).ctl with _ | _ | _
      · rw [List.cons_append, mainLoop_next st fuel skipKey total key _ i w dkeys hs hc,
          mainLoop_next st fuel skipKey total key _ i w dkeys hs hc, ih]
        simp only [List.length_cons]
        rw [show i + 1 + rest.length = i + (rest.length + 1) by omega]
        split <;> simp_all [Run.after, List.append_assoc]
      · rw [List.cons_append, mainLoop_exit st fuel skipKey total key _ i w dkeys hs hc,
          mainLoop_exit st fuel skipKey total key _ i w dkeys hs hc]
        simp
      · rw [List.cons_append, mainLoop_running st fuel skipKey total key _ i w dkeys hs hc,
          mainLoop_running st fuel skipKey total key _ i w dkeys hs hc]
        simp

/-- The run cut at the key of index `j`: either the loop stopped before it, or
the run is what happened before it followed by the loop from `j` on. -/
theorem mainLoop_at (keys : List GoString) (j : Nat) (key : GoString)
    (hj : keys[j]? = some key) (w : W) (dkeys : Writer) :
    ((mainLoop st fuel skipKey total keys 0 w dkeys).result ≠ .success ∧
      ∀ e ∈ (mainLoop st fuel skipKey total keys 0 w dkeys).trace, e.idx < j) ∨
    ∃ pre w1 d1, (∀ e ∈ pre, e.idx < j) ∧
      mainLoop st fuel skipKey total keys 0 w dkeys
        = (mainLoop st fuel skipKey total (key :: keys.drop (j + 1)) j w1 d1).after pre := by
  have hlt : j < keys.length := by
    rcases Nat.lt_or_ge j keys.length with h | h
    · exact h
    · rw [List.getElem?_eq_none h] at hj; cases hj
  have hkey : keys[j] = key := by
    rw [List.getElem?_eq_getElem hlt] at hj
    exact Option.some.inj hj
  have hsplit : keys = keys.take j ++ key :: keys.drop (j + 1) := by
    rw [← hkey, ← List.drop_eq_getElem_cons hlt, List.take_append_drop]
  have hlen : (keys.take j).length = j := by
    rw [List.length_take]; omega
  have happ := mainLoop_append st fuel skipKey total (keys.take j) (key :: keys.drop (j + 1)) 0 w dkeys
  rw [← hsplit, hlen, Nat.zero_add] at happ
  have hpre := mainLoop_idx st fuel skipKey total (keys.take j) 0 w dkeys
  rw [hlen] at hpre
  by_cases hr : (mainLoop st fuel skipKey total (keys.take j) 0 w dkeys).result = .success
  · right
    rw [if_pos hr] at happ
    exact ⟨_, _, _, fun e he => by have := hpre e he; omega, happ⟩
  · left
    rw [if_neg hr] at happ
    rw [happ]
    exact ⟨hr, fun e he => by have := hpre e he; omega⟩

end Loop

section Trace

variable {W : Type} (st : Stores W) (fuel : Nat) (skipKey : Int) (total : Nat)

theorem restoreCalls_append (a b : List Event) :
    restoreCalls (a ++ b) = restoreCalls a ++ restoreCalls b := by
  simp [restoreCalls, List.filterMap_append]

theorem ttlReplies_append (a b : List Event) :
    ttlReplies (a ++ b) = ttlReplies a ++ ttlReplies b := by
  simp [ttlReplies, List.filterMap_append]

theorem dumpReplies_append (a b : List Event) :
    dumpReplies (a ++ b) = dumpReplies a ++ dumpReplies b := by
  simp [dumpReplies, List.filterMap_append]

theorem eventsAt_append (j : Nat) (a b : List Event) :
    eventsAt j (a ++ b) = eventsAt j a ++ eventsAt j b := by
  simp [eventsAt, List.filter_append]

theorem eventsAt_of_ne (j : Nat) (a : List Event) (h : ∀ e ∈ a, e.idx ≠ j) :
    eventsAt j a = [] := by
  simp only [eventsAt, List.filter_eq_nil_iff, decide_eq_true_eq]
  exact h

theorem eventsAt_of_eq (j : Nat) (a : List Event) (h : ∀ e ∈ a, e.idx = j) :
    eventsAt j a = a := by
  simp only [eventsAt, List.filter_eq_self, decide_eq_true_eq]
  exact h

theorem restoreCalls_failedPass (pre : List Event) (h : ∀ e ∈ pre, e.isFailedPass = true) :
    restoreCalls pre = [] := by
  simp only [restoreCalls, List.filterMap_eq_nil_iff]
  intro e he
  have := h e he
  cases e <;> simp_all [Event.isFailedPass]

theorem mem_restoreCalls (tr : List Event) (c : RestoreCall) (h : c ∈ restoreCalls tr) :
    Event.restore c.idx c.key c.ttl c.value c.reply ∈ tr := by
  simp only [restoreCalls, List.mem_filterMap] at h
  obtain ⟨e, he, hc⟩ := h
  cases e <;> simp at hc
  subst hc
  exact he

/-- A property of traces that holds of the empty trace, of the events of any
one iteration and of concatenations holds of the trace of the loop. -/
theorem mainLoop_trace_induction (P : List Event → Prop) (h0 : P [])
    (happ : ∀ a b, P a → P b → P (a ++ b))
    (hk : ∀ i key w dkeys, P (retryKey st i total key fuel 0 w dkeys).events)
    (keys : List GoString) (i : Nat) (w : W) (dkeys : Writer) :
    P (mainLoop st fuel skipKey total keys i w dkeys).trace := by
  induction keys generalizing i w dkeys with
  | nil => simpa [mainLoop] using h0
  | cons key rest ih =>
    by_cases hs : (i : Int) < skipKey
    · rw [mainLoop_skip st fuel skipKey total key rest i w dkeys hs]
      exact ih _ _ _
    · rcases hc : (retryKey st i total key fuel 0 w dkeys).ctl with _ | _ | _
      · rw [mainLoop_next st fuel skipKey total key rest i w dkeys hs hc]
        exact happ _ _ (hk _ _ _ _) (ih _ _ _)
      · rw [mainLoop_exit st fuel skipKey total key rest i w dkeys hs hc]
        exact hk _ _ _ _
      · rw [mainLoop_running st fuel skipKey total key rest i w dkeys hs hc]
        exact hk _ _ _ _

/-- The head of the loop when the key is not skipped, by the way its body is
left. -/
theorem mainLoop_head (key : GoString) (rest : List GoString) (i : Nat) (w : W) (dkeys : Writer)
    (h : ¬ (i : Int) < skipKey) :
    ((retryKey st i total key fuel 0 w dkeys).ctl = .next ∧
      mainLoop st fuel skipKey total (key :: rest) i w dkeys
        = (mainLoop st fuel skipKey total rest (i + 1)
            (retryKey st i total key fuel 0 w dkeys).world
            (retryKey st i total key fuel 0 w dkeys).dkeys).after
            (retryKey st i total key fuel 0 w dkeys).events) ∨
    ((retryKey st i total key fuel 0 w dkeys).ctl = .exit ∧
      mainLoop st fuel skipKey total (key :: rest) i w dkeys
        = ⟨(retryKey st i total key fuel 0 w dkeys).world,
            (retryKey st i total key fuel 0 w dkeys).dkeys,
            (retryKey st i total key fuel 0 w dkeys).events, .fatal⟩) ∨
    ((retryKey st i total key fuel 0 w dkeys).ctl = .running ∧
      mainLoop st fuel skipKey total (key :: rest) i w dkeys
        = ⟨(retryKey st i total key fuel 0 w dkeys).world,
            (retryKey st i total key fuel 0 w dkeys).dkeys,
            (retryKey st i total key fuel 0 w dkeys).events, .running⟩) := by
  rcases hc : (retryKey st i total key fuel 0 w dkeys).ctl with _ | _ | _
  · exact Or.inl ⟨rfl, mainLoop_next st fuel skipKey total key rest i w dkeys h hc⟩
  · exact Or.inr (Or.inl ⟨rfl, mainLoop_exit st fuel skipKey total key rest i w dkeys h hc⟩)
  · exact Or.inr (Or.inr ⟨rfl, mainLoop_running st fuel skipKey total key rest i w dkeys h hc⟩)

/-- An event of the run belongs to the iteration of its index: the run is what
happened before that iteration, followed by the loop from that key on, and
the event is one of the events of the body for that key. -/
theorem mainLoop_locate (keys : List GoString) (w : W) (dkeys : Writer) (e : Event)
    (he : e ∈ (mainLoop st fuel skipKey total keys 0 w dkeys).trace) :
    ∃ key pre w1 d1, keys[e.idx]? = some key ∧ (∀ x ∈ pre, x.idx < e.idx) ∧
      ¬ ((e.idx : Int) < skipKey) ∧
      e ∈ (retryKey st e.idx total key fuel 0 w1 d1).events ∧
      mainLoop st fuel skipKey total keys 0 w dkeys
        = (mainLoop st fuel skipKey total (key :: keys.drop (e.idx + 1)) e.idx w1 d1).after pre := by
  have hb := mainLoop_idx st fuel skipKey total keys 0 w dkeys e he
  have hlt : e.idx < keys.length := by omega
  have hj : keys[e.idx]? = some keys[e.idx] := List.getElem?_eq_getElem hlt
  rcases mainLoop_at st fuel skipKey total keys e.idx _ hj w dkeys with ⟨_, hl⟩ | ⟨pre, w1, d1, hpre, hr⟩
  · exact absurd (hl e he) (lt_irrefl _)
  · refine ⟨_, pre, w1, d1, hj, hpre, hb.2.2, ?_, hr⟩
    rw [hr] at he
    simp only [Run.after, List.mem_append] at he
    rcases he with he | he
    · exact absurd (hpre e he) (lt_irrefl _)
    · rcases mainLoop_head st fuel skipKey total keys[e.idx] (keys.drop (e.idx + 1)) e.idx w1 d1
          hb.2.2 with ⟨_, h⟩ | ⟨_, h⟩ | ⟨_, h⟩
      · rw [h] at he
        simp only [Run.after, List.mem_append] at he
        rcases he with he | he
        · exact he
        · have := mainLoop_idx st fuel skipKey total _ _ _ _ e he
          omega
      · rw [h] at he; exact he
      · rw [h] at he; exact he

/-- After an iteration left by `continue`, the loop goes on: the next key, if
there is one, gets its `PTTL` call, and without a next key the run is a
success. -/
theorem mainLoop_continues (keys : List GoString) (j : Nat) (w : W) (dkeys : Writer)
    (hs : ¬ ((j : Int) < skipKey)) :
    (∀ key', keys[j + 1]? = some key' → ∃ reply, Event.pttl (j + 1) key' reply ∈
      (mainLoop st (fuel + 1) skipKey total (keys.drop (j + 1)) (j + 1) w dkeys).trace) ∧
    (keys[j + 1]? = none →
      (mainLoop st (fuel + 1) skipKey total (keys.drop (j + 1)) (j + 1) w dkeys).result
        = .success ∧
      (mainLoop st (fuel + 1) skipKey total (keys.drop (j + 1)) (j + 1) w dkeys).trace = []) := by
  constructor
  · intro key' hk
    have hlt : j + 1 < keys.length := by
      rcases Nat.lt_or_ge (j + 1) keys.length with h | h
      · exact h
      · rw [List.getElem?_eq_none h] at hk; cases hk
    have hkey : keys[j + 1] = key' := by
      rw [List.getElem?_eq_getElem hlt] at hk
      exact Option.some.inj hk
    rw [List.drop_eq_getElem_cons hlt, hkey]
    have hs' : ¬ (((j + 1 : Nat) : Int) < skipKey) := by push_cast; omega
    obtain ⟨reply, rest, hhead⟩ := retryKey_head st (j + 1) total key' fuel 0 w dkeys
    refine ⟨reply, ?_⟩
    rcases mainLoop_head st (fuel + 1) skipKey total key' (keys.drop (j + 1 + 1)) (j + 1) w dkeys
        hs' with ⟨_, h⟩ | ⟨_, h⟩ | ⟨_, h⟩ <;> rw [h] <;> simp [Run.after, hhead]
  · intro hk
    have hge : keys.length ≤ j + 1 := by
      rcases Nat.lt_or_ge (j + 1) keys.length with h | h
      · rw [List.getElem?_eq_getElem h] at hk; cases hk
      · exact h
    rw [List.drop_eq_nil_of_le hge]
    simp [mainLoop]

end Trace

/-! ## The claims on the transfer loop -/

theorem mainLoop_all_skipped {W : Type} (st : Stores W) (fuel n total : Nat)
    (keys : List GoString) (i : Nat) (w : W) (dkeys : Writer) (h : i + keys.length ≤ n) :
    mainLoop st fuel (n : Int) total keys i w dkeys = ⟨w, dkeys, [], .success⟩ := by
  induction keys generalizing i with
  | nil => simp [mainLoop]
  | cons key rest ih =>
    simp only [List.length_cons] at h
    have hs : (i : Int) < (n : Int) := by omega
    rw [mainLoop_skip st fuel _ total key rest i w dkeys hs]
    exact ih (i + 1) (by omega)

/-- The events of an iteration left by `continue` show one of the three
outcomes. -/
theorem retryKey_next_outcome {W : Type} (st : Stores W) (i total : Nat) (key : GoString)
    (fuel : Nat) (w : W) (dkeys : Writer)
    (hc : (retryKey st i total key fuel 0 w dkeys).ctl = .next) :
    RestoredOk i key (retryKey st i total key fuel 0 w dkeys).events ∨
    RestoreConflict i key (retryKey st i total key fuel 0 w dkeys).events ∨
    DumpNotFound i key (retryKey st i total key fuel 0 w dkeys).events := by
  obtain ⟨pre, hpre, hsh⟩ := retryKey_shape st i total key fuel 0 w dkeys
  have hrc := restoreCalls_failedPass pre (fun e he => (hpre e he).1)
  rcases hsh with ⟨_, _, h3⟩ | ⟨d, h1, _, _⟩ | ⟨d, v, r, l, h1, _, h3⟩
  · exact absurd hc h3
  · right; right
    rw [h1]
    refine ⟨by simp, ?_⟩
    rw [restoreCalls_append, hrc]
    rfl
  · have ht : (ttlReplies (retryKey st i total key fuel 0 w dkeys).events).getLast? = some d := by
      rw [h1, ttlReplies_append]
      simp [ttlReplies]
    have hd : (dumpReplies (retryKey st i total key fuel 0 w dkeys).events).getLast? = some v := by
      rw [h1, dumpReplies_append]
      simp [dumpReplies]
    have hr : restoreCalls (retryKey st i total key fuel 0 w dkeys).events = [⟨i, key, d, v, r⟩] := by
      rw [h1, restoreCalls_append, hrc]
      rfl
    rcases h3 with ⟨hn, _, _⟩ | ⟨err, hn, hb, _, _⟩ | ⟨err, _, _, _, hx⟩
    · left
      subst hn
      exact ⟨d, v, ht, hd, hr⟩
    · right; left
      subst hn
      exact ⟨d, v, err, ht, hd, hr, hb⟩
    · rw [hx] at hc; cases hc

/-- C4: with `-skip n` no event of the run (no `PTTL`, `Dump` or `Restore`
call, no call of `writeToFile`, no console line) belongs to a key of index
below `n`, whatever the stores do; and when `n` is at least the number of
keys the run succeeds with no event at all, the stores and the snapshot
writer untouched. -/
theorem transfer_resume {W : Type} (st : Stores W) (fuel n : Nat) (allKeys : List GoString)
    (w : W) (dkeys : Writer) :
    (∀ e ∈ (transfer st fuel (n : Int) allKeys w dkeys).trace, n ≤ e.idx) ∧
    (allKeys.length ≤ n →
      transfer st fuel (n : Int) allKeys w dkeys = ⟨w, dkeys, [], .success⟩) := by
  constructor
  · intro e he
    have := (mainLoop_idx st fuel (n : Int) allKeys.length allKeys 0 w dkeys e he).2.2
    omega
  · intro h
    exact mainLoop_all_skipped st fuel n allKeys.length allKeys 0 w dkeys (by omega)

/-- C1: in a run that ends successfully, every key at an index not below the
skip offset shows exactly one of three outcomes among the events of its
iteration: one `Restore` call with the last TTL and value read, answered
without error; that one `Restore` call answered with a `BUSYKEY` error; or a
`Dump` answered `redis.Nil` and no `Restore` call. -/
theorem transfer_complete {W : Type} (st : Stores W) (fuel : Nat) (skipKey : Int)
    (allKeys : List GoString) (w : W) (dkeys : Writer) (j : Nat) (key : GoString)
    (hs : (transfer st fuel skipKey allKeys w dkeys).result = .success)
    (hj : allKeys[j]? = some key) (hskip : skipKey ≤ (j : Int)) :
    (RestoredOk j key (eventsAt j (transfer st fuel skipKey allKeys w dkeys).trace) ∨
      RestoreConflict j key (eventsAt j (transfer st fuel skipKey allKeys w dkeys).trace) ∨
      DumpNotFound j key (eventsAt j (transfer st fuel skipKey allKeys w dkeys).trace)) ∧
    ¬ (RestoredOk j key (eventsAt j (transfer st fuel skipKey allKeys w dkeys).trace) ∧
      RestoreConflict j key (eventsAt j (transfer st fuel skipKey allKeys w dkeys).trace)) ∧
    ¬ (RestoredOk j key (eventsAt j (transfer st fuel skipKey allKeys w dkeys).trace) ∧
      DumpNotFound j key (eventsAt j (transfer st fuel skipKey allKeys w dkeys).trace)) ∧
    ¬ (RestoreConflict j key (eventsAt j (transfer st fuel skipKey allKeys w dkeys).trace) ∧
      DumpNotFound j key (eventsAt j (transfer st fuel skipKey allKeys w dkeys).trace)) := by
  refine ⟨?_, ?_, ?_, ?_⟩
  · unfold transfer at hs ⊢
    have hns : ¬ ((j : Int) < skipKey) := by omega
    rcases mainLoop_at st fuel skipKey allKeys.length allKeys j key hj w dkeys with
      ⟨hl, _⟩ | ⟨pre, w1, d1, hpre, hr⟩
    · exact absurd hs hl
    · rw [hr] at hs ⊢
      rcases mainLoop_head st fuel skipKey allKeys.length key (allKeys.drop (j + 1)) j w1 d1 hns
        with ⟨hc, h⟩ | ⟨_, h⟩ | ⟨_, h⟩
      · rw [h]
        have e1 : eventsAt j pre = [] :=
          eventsAt_of_ne j pre (fun e he => by have := hpre e he; omega)
        have e2 : eventsAt j (retryKey st j allKeys.length key fuel 0 w1 d1).events
            = (retryKey st j allKeys.length key fuel 0 w1 d1).events :=
          eventsAt_of_eq j _ (retryKey_idx st j allKeys.length key fuel 0 w1 d1)
        have e3 : eventsAt j (mainLoop st fuel skipKey allKeys.length (allKeys.drop (j + 1)) (j + 1)
            (retryKey st j allKeys.length key fuel 0 w1 d1).world
            (retryKey st j allKeys.length key fuel 0 w1 d1).dkeys).trace = [] :=
          eventsAt_of_ne j _ (fun e he => by
            have := mainLoop_idx st fuel skipKey allKeys.length _ _ _ _ e he
            omega)
        simp only [Run.after, eventsAt_append, e1, e2, e3, List.nil_append, List.append_nil]
        exact retryKey_next_outcome st j allKeys.length key fuel w1 d1 hc
      · rw [h] at hs; simp [Run.after] at hs
      · rw [h] at hs; simp [Run.after] at hs
  · rintro ⟨⟨d, v, _, _, h1⟩, ⟨d', v', err, _, _, h2, _⟩⟩
    rw [h1] at h2
    simp at h2
  · rintro ⟨⟨d, v, _, _, h1⟩, ⟨_, h2⟩⟩
    rw [h1] at h2
    simp at h2
  · rintro ⟨⟨d, v, err, _, _, h1, _⟩, ⟨_, h2⟩⟩
    rw [h1] at h2
    simp at h2

theorem isProgress_of_failedPass (e : Event) (h : e.isFailedPass = true) :
    e.isProgress = false := by
  cases e with
  | print i line => cases line <;> simp_all [Event.isFailedPass, Event.isProgress]
  | _ => simp_all [Event.isFailedPass, Event.isProgress]

theorem isWriteOrRestore_of_failedPass (e : Event) (h : e.isFailedPass = true) :
    e.isWriteOrRestore = false := by
  cases e <;> simp_all [Event.isFailedPass, Event.isWriteOrRestore]

/-- A `Restore` call among the events of an iteration is the fourth event of
its last pass. -/
theorem retryKey_restore_mem {W : Type} (st : Stores W) (i total : Nat) (key : GoString)
    (fuel retryCount : Nat) (w : W) (dkeys : Writer) (i' : Nat) (key' : GoString) (dur : Int)
    (data : GoString) (reply : Option GoError)
    (h : Event.restore i' key' dur data reply
      ∈ (retryKey st i total key fuel retryCount w dkeys).events) :
    i' = i ∧ key' = key ∧ ∃ pre line, (∀ e ∈ pre, e.isFailedPass = true ∧ e.idx = i) ∧
      (retryKey st i total key fuel retryCount w dkeys).events
        = pre ++ [.pttl i key (.ok dur), .dump i key (.ok data), .write i key data dur,
            .restore i key dur data reply, .print i line] ∧
      (retryKey st i total key fuel retryCount w dkeys).dkeys = writeToFile dkeys key data dur ∧
      restoredPass i total key reply line (retryKey st i total key fuel retryCount w dkeys).ctl := by
  obtain ⟨pre, hpre, hsh⟩ := retryKey_shape st i total key fuel retryCount w dkeys
  have hnot : Event.restore i' key' dur data reply ∉ pre := fun hm => by
    have := (hpre _ hm).1
    simp [Event.isFailedPass] at this
  rcases hsh with ⟨h1, _, _⟩ | ⟨d, h1, _, _⟩ | ⟨d, v, r, l, h1, h2, h3⟩
  · rw [h1] at h; exact absurd h hnot
  · rw [h1] at h
    rcases List.mem_append.mp h with h | h
    · exact absurd h hnot
    · simp at h
  · rw [h1] at h
    rcases List.mem_append.mp h with h | h
    · exact absurd h hnot
    · simp at h
      obtain ⟨rfl, rfl, rfl, rfl, rfl⟩ := h
      exact ⟨rfl, rfl, pre, l, hpre, h1, h2, h3⟩

/-- A `Dump` answered `redis.Nil` among the events of an iteration is the last
call of the iteration, which is then left by `continue`. -/
theorem retryKey_dumpNil_mem {W : Type} (st : Stores W) (i total : Nat) (key : GoString)
    (fuel retryCount : Nat) (w : W) (dkeys : Writer) (i' : Nat) (key' : GoString)
    (h : Event.dump i' key' (.err .redisNil)
      ∈ (retryKey st i total key fuel retryCount w dkeys).events) :
    i' = i ∧ key' = key ∧ ∃ pre dur, (∀ e ∈ pre, e.isFailedPass = true ∧ e.idx = i) ∧
      (retryKey st i total key fuel retryCount w dkeys).events
        = pre ++ [.pttl i key (.ok dur), .dump i key (.err .redisNil),
            .print i (.errorDumpingKey key .redisNil)] ∧
      (retryKey st i total key fuel retryCount w dkeys).dkeys = dkeys ∧
      (retryKey st i total key fuel retryCount w dkeys).ctl = .next := by
  obtain ⟨pre, hpre, hsh⟩ := retryKey_shape st i total key fuel retryCount w dkeys
  have hnot : Event.dump i' key' (.err .redisNil) ∉ pre := fun hm => by
    have := (hpre _ hm).1
    simp [Event.isFailedPass] at this
  rcases hsh with ⟨h1, _, _⟩ | ⟨d, h1, h2, h3⟩ | ⟨d, v, r, l, h1, _, _⟩
  · rw [h1] at h; exact absurd h hnot
  · rw [h1] at h
    rcases List.mem_append.mp h with h | h
    · exact absurd h hnot
    · simp at h
      obtain ⟨rfl, rfl⟩ := h
      exact ⟨rfl, rfl, pre, d, hpre, h1, h2, h3⟩
  · rw [h1] at h
    rcases List.mem_append.mp h with h | h
    · exact absurd h hnot
    · simp at h

/-- C5: a `Restore` call answered with an error whose text contains `BUSYKEY`
does not end the run: no `COPIED KEY` line is printed for that key, the next
key (if any) gets its `PTTL` call, and without a next key the run is a
success. A `Restore` call answered with any other error ends the run with
`os.Exit(1)`: it is the last store call of the trace, followed only by the
error line, and no event belongs to a later key. -/
theorem restore_conflict_nonfatal {W : Type} (st : Stores W) (fuel : Nat) (skipKey : Int)
    (allKeys : List GoString) (w : W) (dkeys : Writer) (j : Nat) (key : GoString) (dur : Int)
    (data : GoString) (err : GoError)
    (h : Event.restore j key dur data (some err)
      ∈ (transfer st fuel skipKey allKeys w dkeys).trace) :
    (isBusyKey err = true →
      (∀ e ∈ (transfer st fuel skipKey allKeys w dkeys).trace,
        e.idx = j → e.isProgress = false) ∧
      (∀ key', allKeys[j + 1]? = some key' → ∃ reply,
        Event.pttl (j + 1) key' reply ∈ (transfer st fuel skipKey allKeys w dkeys).trace) ∧
      (allKeys[j + 1]? = none →
        (transfer st fuel skipKey allKeys w dkeys).result = .success)) ∧
    (isBusyKey err = false →
      (transfer st fuel skipKey allKeys w dkeys).result = .fatal ∧
      (∀ e ∈ (transfer st fuel skipKey allKeys w dkeys).trace, e.idx ≤ j) ∧
      ∃ pre, (transfer st fuel skipKey allKeys w dkeys).trace
        = pre ++ [.restore j key dur data (some err), .print j (.errorRestoringKey err)]) := by
  unfold transfer at h ⊢
  obtain ⟨key0, pre, w1, d1, _, hpre, hns, hmem, hr⟩ :=
    mainLoop_locate st fuel skipKey allKeys.length allKeys w dkeys _ h
  have hidx : (Event.restore j key dur data (some err)).idx = j := rfl
  simp only [hidx] at hpre hns hmem hr
  obtain ⟨_, hkey, pre', line, hpre', hev, _, hpass⟩ :=
    retryKey_restore_mem st j allKeys.length key0 fuel 0 w1 d1 j key dur data (some err) hmem
  subst hkey
  cases fuel with
  | zero => simp [retryKey] at hmem
  | succ f =>
  rw [hr]
  constructor
  · intro hb
    have hc : (retryKey st j allKeys.length key (f + 1) 0 w1 d1).ctl = .next ∧
        line = .keyAlreadyExists key := by
      rcases hpass with ⟨hn, _, _⟩ | ⟨e', he', _, hl, hc⟩ | ⟨e', he', hb', _, _⟩
      · cases hn
      · exact ⟨hc, hl⟩
      · cases he'; rw [hb] at hb'; cases hb'
    rw [mainLoop_next st (f + 1) skipKey allKeys.length key _ j w1 d1 hns hc.1]
    obtain ⟨hnext, hlast⟩ := mainLoop_continues st f skipKey allKeys.length allKeys j
      (retryKey st j allKeys.length key (f + 1) 0 w1 d1).world
      (retryKey st j allKeys.length key (f + 1) 0 w1 d1).dkeys hns
    refine ⟨?_, ?_, ?_⟩
    · intro e he hj
      simp only [Run.after, List.mem_append] at he
      rcases he with he | he | he
      · have := hpre e he; omega
      · rw [hev, hc.2] at he
        rcases List.mem_append.mp he with he | he
        · exact isProgress_of_failedPass e (hpre' e he).1
        · simp at he
          rcases he with rfl | rfl | rfl | rfl | rfl <;> rfl
      · have := mainLoop_idx st (f + 1) skipKey allKeys.length _ _ _ _ e he
        omega
    · intro key' hk
      obtain ⟨reply, hm⟩ := hnext key' hk
      exact ⟨reply, by simp only [Run.after, List.mem_append]; exact Or.inr (Or.inr hm)⟩
    · intro hk
      simpa [Run.after] using (hlast hk).1
  · intro hb
    have hc : (retryKey st j allKeys.length key (f + 1) 0 w1 d1).ctl = .exit ∧
        line = .errorRestoringKey err := by
      rcases hpass with ⟨hn, _, _⟩ | ⟨e', he', hb', _, _⟩ | ⟨e', he', _, hl, hc⟩
      · cases hn
      · cases he'; rw [hb] at hb'; cases hb'
      · cases he'; exact ⟨hc, hl⟩
    rw [mainLoop_exit st (f + 1) skipKey allKeys.length key _ j w1 d1 hns hc.1]
    refine ⟨rfl, ?_, ?_⟩
    · intro e he
      simp only [Run.after, List.mem_append] at he
      rcases he with he | he
      · have := hpre e he; omega
      · have := retryKey_idx st j allKeys.length key (f + 1) 0 w1 d1 e he
        omega
    · refine ⟨pre ++ pre' ++ [.pttl j key (.ok dur), .dump j key (.ok data),
        .write j key data dur], ?_⟩
      simp [Run.after, hev, hc.2, List.append_assoc]

/-- What follows a `Dump` answered `redis.Nil`. -/
theorem dumpNil_continues {W : Type} (st : Stores W) (fuel : Nat) (skipKey : Int)
    (allKeys : List GoString) (w : W) (dkeys : Writer) (j : Nat) (key : GoString)
    (h : Event.dump j key (.err .redisNil) ∈ (transfer st fuel skipKey allKeys w dkeys).trace) :
    (∀ e ∈ (transfer st fuel skipKey allKeys w dkeys).trace,
      e.idx = j → e.isWriteOrRestore = false) ∧
    (∃ pre post, (transfer st fuel skipKey allKeys w dkeys).trace
        = pre ++ [.dump j key (.err .redisNil), .print j (.errorDumpingKey key .redisNil)]
            ++ post ∧
      ∀ e ∈ post, j < e.idx) ∧
    (∀ key', allKeys[j + 1]? = some key' → ∃ reply,
      Event.pttl (j + 1) key' reply ∈ (transfer st fuel skipKey allKeys w dkeys).trace) ∧
    (allKeys[j + 1]? = none → (transfer st fuel skipKey allKeys w dkeys).result = .success) := by
  unfold transfer at h ⊢
  obtain ⟨key0, pre, w1, d1, _, hpre, hns, hmem, hr⟩ :=
    mainLoop_locate st fuel skipKey allKeys.length allKeys w dkeys _ h
  have hidx : (Event.dump j key (.err .redisNil)).idx = j := rfl
  simp only [hidx] at hpre hns hmem hr
  obtain ⟨_, hkey, pre', dur, hpre', hev, _, hc⟩ :=
    retryKey_dumpNil_mem st j allKeys.length key0 fuel 0 w1 d1 j key hmem
  subst hkey
  cases fuel with
  | zero => simp [retryKey] at hmem
  | succ f =>
  rw [hr, mainLoop_next st (f + 1) skipKey allKeys.length key _ j w1 d1 hns hc]
  obtain ⟨hnext, hlast⟩ := mainLoop_continues st f skipKey allKeys.length allKeys j
    (retryKey st j allKeys.length key (f + 1) 0 w1 d1).world
    (retryKey st j allKeys.length key (f + 1) 0 w1 d1).dkeys hns
  refine ⟨?_, ?_, ?_, ?_⟩
  · intro e he hj
    simp only [Run.after, List.mem_append] at he
    rcases he with he | he | he
    · have := hpre e he; omega
    · rw [hev] at he
      rcases List.mem_append.mp he with he | he
      · exact isWriteOrRestore_of_failedPass e (hpre' e he).1
      · simp at he
        rcases he with rfl | rfl | rfl <;> rfl
    · have := mainLoop_idx st (f + 1) skipKey allKeys.length _ _ _ _ e he
      omega
  · refine ⟨pre ++ pre' ++ [.pttl j key (.ok dur)],
      (mainLoop st (f + 1) skipKey allKeys.length (allKeys.drop (j + 1)) (j + 1)
        (retryKey st j allKeys.length key (f + 1) 0 w1 d1).world
        (retryKey st j allKeys.length key (f + 1) 0 w1 d1).dkeys).trace, ?_, ?_⟩
    · simp [Run.after, hev, List.append_assoc]
    · intro e he
      have := mainLoop_idx st (f + 1) skipKey allKeys.length _ _ _ _ e he
      omega
  · intro key' hk
    obtain ⟨reply, hm⟩ := hnext key' hk
    exact ⟨reply, by simp only [Run.after, List.mem_append]; exact Or.inr (Or.inr hm)⟩
  · intro hk
    simpa [Run.after] using (hlast hk).1

/-- C10: a `Dump` answered `redis.Nil`, on whichever pass, ends the iteration
without error: no `writeToFile` and no `Restore` call belongs to that key, the
failed `Dump` and its console line are the last events of the key (no retry),
the next key (if any) gets its `PTTL` call, and without a next key the run is
a success. -/
theorem vanished_key_skipped {W : Type} (st : Stores W) (fuel : Nat) (skipKey : Int)
    (allKeys : List GoString) (w : W) (dkeys : Writer) (j : Nat) (key : GoString)
    (h : Event.dump j key (.err .redisNil) ∈ (transfer st fuel skipKey allKeys w dkeys).trace) :
    (∀ e ∈ (transfer st fuel skipKey allKeys w dkeys).trace,
      e.idx = j → e.isWriteOrRestore = false) ∧
    (∃ pre post, (transfer st fuel skipKey allKeys w dkeys).trace
        = pre ++ [.dump j key (.err .redisNil), .print j (.errorDumpingKey key .redisNil)]
            ++ post ∧
      ∀ e ∈ post, j < e.idx) ∧
    (∀ key', allKeys[j + 1]? = some key' → ∃ reply,
      Event.pttl (j + 1) key' reply ∈ (transfer st fuel skipKey allKeys w dkeys).trace) ∧
    (allKeys[j + 1]? = none → (transfer st fuel skipKey allKeys w dkeys).result = .success) :=
  dumpNil_continues st fuel skipKey allKeys w dkeys j key h

theorem isTransferStep_of_failedPass (e : Event) (h : e.isFailedPass = true) :
    e.isTransferStep = false := by
  cases e with
  | dump i key reply => cases reply <;> simp_all [Event.isFailedPass, Event.isTransferStep]
  | _ => simp_all [Event.isFailedPass, Event.isTransferStep]

/-- Per iteration: at most one `Restore` call, made right after the
`writeToFile` call for the same key, value and TTL, itself right after the
successful `Dump`; and the snapshot writer has received exactly these
records. -/
theorem retryKey_steps {W : Type} (st : Stores W) (i total : Nat) (key : GoString)
    (fuel : Nat) (w : W) (dkeys : Writer) :
    (retryKey st i total key fuel 0 w dkeys).events.filter Event.isTransferStep
      = (restoreCalls (retryKey st i total key fuel 0 w dkeys).events).flatMap
          (fun c => [.dump c.idx c.key (.ok c.value), .write c.idx c.key c.value c.ttl,
            .restore c.idx c.key c.ttl c.value c.reply]) ∧
    (retryKey st i total key fuel 0 w dkeys).dkeys
      = (restoreCalls (retryKey st i total key fuel 0 w dkeys).events).foldl
          (fun f c => writeToFile f c.key c.value c.ttl) dkeys ∧
    (restoreCalls (retryKey st i total key fuel 0 w dkeys).events).length ≤ 1 := by
  obtain ⟨pre, hpre, hsh⟩ := retryKey_shape st i total key fuel 0 w dkeys
  have hrc := restoreCalls_failedPass pre (fun e he => (hpre e he).1)
  have hfl : pre.filter Event.isTransferStep = [] := by
    simp only [List.filter_eq_nil_iff]
    intro e he
    simp [isTransferStep_of_failedPass e (hpre e he).1]
  rcases hsh with ⟨h1, h2, _⟩ | ⟨d, h1, h2, _⟩ | ⟨d, v, r, l, h1, h2, _⟩
  · rw [h1, h2, hrc, hfl]; simp
  · rw [h1, h2, restoreCalls_append, hrc, List.filter_append, hfl]
    simp [restoreCalls, Event.isTransferStep]
  · rw [h1, h2, restoreCalls_append, hrc, List.filter_append, hfl]
    cases l <;> simp [restoreCalls, Event.isTransferStep]

theorem mainLoop_dkeys {W : Type} (st : Stores W) (fuel : Nat) (skipKey : Int) (total : Nat)
    (keys : List GoString) (i : Nat) (w : W) (dkeys : Writer) :
    (mainLoop st fuel skipKey total keys i w dkeys).dkeys
      = (restoreCalls (mainLoop st fuel skipKey total keys i w dkeys).trace).foldl
          (fun f c => writeToFile f c.key c.value c.ttl) dkeys := by
  induction keys generalizing i w dkeys with
  | nil => simp [mainLoop, restoreCalls]
  | cons key rest ih =>
    by_cases hs : (i : Int) < skipKey
    · rw [mainLoop_skip st fuel skipKey total key rest i w dkeys hs]
      exact ih _ _ _
    · have hk := (retryKey_steps st i total key fuel w dkeys).2.1
      rcases mainLoop_head st fuel skipKey total key rest i w dkeys hs with
        ⟨_, h⟩ | ⟨_, h⟩ | ⟨_, h⟩
      · rw [h]
        simp only [Run.after, restoreCalls_append, List.foldl_append]
        rw [← hk]
        exact ih _ _ _
      · rw [h]; exact hk
      · rw [h]; exact hk

theorem mainLoop_restore_sorted {W : Type} (st : Stores W) (fuel : Nat) (skipKey : Int)
    (total : Nat) (keys : List GoString) (i : Nat) (w : W) (dkeys : Writer) :
    ((restoreCalls (mainLoop st fuel skipKey total keys i w dkeys).trace).map
      (fun c => c.idx)).Pairwise (fun a b => a < b) := by
  induction keys generalizing i w dkeys with
  | nil => simp [mainLoop, restoreCalls]
  | cons key rest ih =>
    by_cases hs : (i : Int) < skipKey
    · rw [mainLoop_skip st fuel skipKey total key rest i w dkeys hs]
      exact ih _ _ _
    · have hlen := (retryKey_steps st i total key fuel w dkeys).2.2
      have hone : ((restoreCalls (retryKey st i total key fuel 0 w dkeys).events).map
          (fun c => c.idx)).Pairwise (fun a b => a < b) := by
        rcases hrc : restoreCalls (retryKey st i total key fuel 0 w dkeys).events with _ | ⟨c, cs⟩
        · simp
        · rw [hrc] at hlen
          cases cs with
          | nil => simp
          | cons c' cs' => simp at hlen
      rcases mainLoop_head st fuel skipKey total key rest i w dkeys hs with
        ⟨_, h⟩ | ⟨_, h⟩ | ⟨_, h⟩
      · rw [h]
        simp only [Run.after, restoreCalls_append, List.map_append]
        rw [List.pairwise_append]
        refine ⟨hone, ih _ _ _, ?_⟩
        intro a ha b hb
        obtain ⟨ca, hca, rfl⟩ := List.mem_map.mp ha
        obtain ⟨cb, hcb, rfl⟩ := List.mem_map.mp hb
        have h1 := retryKey_idx st i total key fuel 0 w dkeys _ (mem_restoreCalls _ _ hca)
        have h2 := mainLoop_idx st fuel skipKey total _ _ _ _ _ (mem_restoreCalls _ _ hcb)
        simp only [Event.idx] at h1 h2
        omega
      · rw [h]; exact hone
      · rw [h]; exact hone

theorem foldl_writeToFile_file (cs : List RestoreCall) (pre : GoString) :
    cs.foldl (fun f c => writeToFile f c.key c.value c.ttl) (Writer.file pre)
      = .file (pre ++ (cs.map (fun c => record c.key c.value c.ttl)).flatten) := by
  induction cs generalizing pre with
  | nil => simp
  | cons c cs ih =>
    simp only [List.foldl_cons, List.map_cons, List.flatten_cons]
    rw [writeToFile_file, ih, List.append_assoc]

/-- C7: with an open snapshot file, the successful `Dump` calls, the
`writeToFile` calls and the `Restore` calls of a run come in triples, in this
order and with the same key, value and TTL, one triple per `Restore` call: a
key that was read is written to the snapshot before it is restored. The file
ends up holding, after what it held before, the record of every `Restore`
call in the order of the calls, whatever these calls returned and however the
run ended. The calls are in enumeration order, at most one per index, each for
the key of its index and never for a skipped index or for an index whose
`Dump` was answered `redis.Nil`. -/
theorem snapshot_before_restore {W : Type} (st : Stores W) (fuel : Nat) (skipKey : Int)
    (allKeys : List GoString) (w : W) (pre : GoString) :
    (transfer st fuel skipKey allKeys w (.file pre)).trace.filter Event.isTransferStep
      = (restoreCalls (transfer st fuel skipKey allKeys w (.file pre)).trace).flatMap
          (fun c => [.dump c.idx c.key (.ok c.value), .write c.idx c.key c.value c.ttl,
            .restore c.idx c.key c.ttl c.value c.reply]) ∧
    (transfer st fuel skipKey allKeys w (.file pre)).dkeys
      = (restoreCalls (transfer st fuel skipKey allKeys w (.file pre)).trace).foldl
          (fun f c => writeToFile f c.key c.value c.ttl) (.file pre) ∧
    (transfer st fuel skipKey allKeys w (.file pre)).dkeys
      = .file (pre ++ ((restoreCalls (transfer st fuel skipKey allKeys w (.file pre)).trace).map
          (fun c => record c.key c.value c.ttl)).flatten) ∧
    ((restoreCalls (transfer st fuel skipKey allKeys w (.file pre)).trace).map
      (fun c => c.idx)).Pairwise (fun a b => a < b) ∧
    (∀ c ∈ restoreCalls (transfer st fuel skipKey allKeys w (.file pre)).trace,
      allKeys[c.idx]? = some c.key ∧ ¬ ((c.idx : Int) < skipKey)) ∧
    (∀ j key, Event.dump j key (.err .redisNil)
        ∈ (transfer st fuel skipKey allKeys w (.file pre)).trace →
      ∀ c ∈ restoreCalls (transfer st fuel skipKey allKeys w (.file pre)).trace, c.idx ≠ j) := by
  have h2 := mainLoop_dkeys st fuel skipKey allKeys.length allKeys 0 w (.file pre)
  refine ⟨?_, h2, ?_, mainLoop_restore_sorted st fuel skipKey allKeys.length allKeys 0 w _, ?_, ?_⟩
  · refine mainLoop_trace_induction st fuel skipKey allKeys.length
      (fun tr => tr.filter Event.isTransferStep = (restoreCalls tr).flatMap
        (fun c => [.dump c.idx c.key (.ok c.value), .write c.idx c.key c.value c.ttl,
          .restore c.idx c.key c.ttl c.value c.reply])) ?_ ?_ ?_ allKeys 0 w (.file pre)
    · simp [restoreCalls]
    · intro a b ha hb
      simp only [List.filter_append, restoreCalls_append, List.flatMap_append, ha, hb]
    · intro i key w1 d1
      exact (retryKey_steps st i allKeys.length key fuel w1 d1).1
  · unfold transfer
    rw [h2, foldl_writeToFile_file]
  · intro c hc
    have hm := mem_restoreCalls _ c hc
    obtain ⟨key0, p, w1, d1, hk, _, hns, hmem, _⟩ :=
      mainLoop_locate st fuel skipKey allKeys.length allKeys w (.file pre) _ hm
    have hidx : (Event.restore c.idx c.key c.ttl c.value c.reply).idx = c.idx := rfl
    simp only [hidx] at hk hns hmem
    obtain ⟨_, hkey, _⟩ :=
      retryKey_restore_mem st c.idx allKeys.length key0 fuel 0 w1 d1 _ _ _ _ _ hmem
    rw [hkey]
    exact ⟨hk, hns⟩
  · intro j key hd c hc hj
    have hm := mem_restoreCalls _ c hc
    have := (dumpNil_continues st fuel skipKey allKeys w (.file pre) j key hd).1 _ hm hj
    simp [Event.isWriteOrRestore] at this

/-! ## The retry bounds -/

section Retry

variable {W : Type} (st : Stores W) (i total : Nat) (key : GoString)

/-- With fewer failures ahead than the counter allows, the dump step gets
through and `Restore` is called. -/
theorem dump_retry_ok (m retryCount fuel : Nat) (w : W) (dkeys : Writer)
    (hm : DumpFailsThenOk st key m w) (h : retryCount + m < 3) (hf : m < fuel) :
    ∃ pre dur data reply line,
      (retryKey st i total key fuel retryCount w dkeys).events
        = pre ++ [.pttl i key (.ok dur), .dump i key (.ok data), .write i key data dur,
            .restore i key dur data reply, .print i line] ∧
      (pre.filter Event.isDump).length = m ∧ (∀ e ∈ pre, e.isFailedPass = true) ∧
      restoredPass i total key reply line
        (retryKey st i total key fuel retryCount w dkeys).ctl := by
  induction m generalizing retryCount fuel w with
  | zero =>
    obtain ⟨w1, dur, w2, data, h1, h2⟩ := hm
    obtain ⟨f, rfl⟩ : ∃ f, fuel = f + 1 := ⟨fuel - 1, by omega⟩
    rcases h3 : st.Restore w2 key dur data with ⟨w3, _ | err⟩
    · rw [retryKey_restore_ok st i total key f retryCount w w1 w2 w3 dkeys dur data h1 h2 h3]
      exact ⟨[], dur, data, none, .copiedKey (i + 1) total key, rfl, rfl, by simp,
        Or.inl ⟨rfl, rfl, rfl⟩⟩
    · by_cases hb : isBusyKey err = true
      · rw [retryKey_restore_busy st i total key f retryCount w w1 w2 w3 dkeys dur data err
          h1 h2 h3 hb]
        exact ⟨[], dur, data, some err, .keyAlreadyExists key, rfl, rfl, by simp,
          Or.inr (Or.inl ⟨err, rfl, hb, rfl, rfl⟩)⟩
      · rw [retryKey_restore_fail st i total key f retryCount w w1 w2 w3 dkeys dur data err
          h1 h2 h3 hb]
        exact ⟨[], dur, data, some err, .errorRestoringKey err, rfl, rfl, by simp,
          Or.inr (Or.inr ⟨err, rfl, by simpa using hb, rfl, rfl⟩)⟩
  | succ m ih =>
    obtain ⟨w1, dur, w2, err, h1, h2, hn, hm'⟩ := hm
    obtain ⟨f, rfl⟩ : ∃ f, fuel = f + 1 := ⟨fuel - 1, by omega⟩
    rw [retryKey_dump_retry st i total key f retryCount w w1 w2 dkeys dur err h1 h2 hn (by omega)]
    obtain ⟨pre, d, v, r, l, he, hcount, hpre, hpass⟩ :=
      ih (retryCount + 1) f w2 hm' (by omega) (by omega)
    refine ⟨[.pttl i key (.ok dur), .dump i key (.err err),
      .print i (.errorDumpingKey key err)] ++ pre, d, v, r, l, ?_, ?_, ?_, hpass⟩
    · simp [KeyRun.after, he]
    · simp [List.filter_append, Event.isDump, hcount]
    · intro e he'
      rcases List.mem_append.mp he' with he' | he'
      · simp at he'
        rcases he' with rfl | rfl | rfl <;> simp [Event.isFailedPass, hn]
      · exact hpre e he'

/-- With at least as many failures ahead as the counter allows, the body exits
at the failure that brings `retryCount` to 3, `Restore` never called. -/
theorem dump_retry_exhausted (m retryCount fuel : Nat) (w : W) (dkeys : Writer)
    (hm : DumpFailsThenOk st key m w) (h : 3 ≤ retryCount + m) (hrc : retryCount < 3)
    (hf : 3 - retryCount ≤ fuel) :
    (retryKey st i total key fuel retryCount w dkeys).ctl = .exit ∧
    ((retryKey st i total key fuel retryCount w dkeys).events.filter Event.isDump).length
      = 3 - retryCount ∧
    restoreCalls (retryKey st i total key fuel retryCount w dkeys).events = [] := by
  induction m generalizing retryCount fuel w with
  | zero => omega
  | succ m ih =>
    obtain ⟨w1, dur, w2, err, h1, h2, hn, hm'⟩ := hm
    obtain ⟨f, rfl⟩ : ∃ f, fuel = f + 1 := ⟨fuel - 1, by omega⟩
    by_cases hc : retryCount + 1 < 3
    · rw [retryKey_dump_retry st i total key f retryCount w w1 w2 dkeys dur err h1 h2 hn hc]
      obtain ⟨hctl, hcount, hrest⟩ := ih (retryCount + 1) f w2 hm' (by omega) hc (by omega)
      refine ⟨hctl, ?_, ?_⟩
      · simp [KeyRun.after, List.filter_append, Event.isDump, hcount]
        omega
      · simp only [KeyRun.after, restoreCalls_append, hrest, List.append_nil]
        rfl
    · rw [retryKey_dump_exit st i total key f retryCount w w1 w2 dkeys dur err h1 h2 hn hc]
      refine ⟨rfl, ?_, ?_⟩
      · simp [Event.isDump]
        omega
      · simp [restoreCalls]

/-- While `PTTL` fails the body goes round without ever counting: after any
number of passes it is still running, having made that many `PTTL` calls. -/
theorem ttl_retry_forever (hfail : ∀ w, ∃ w1 err, st.PTTL w key = (w1, .err err))
    (fuel : Nat) (w : W) (dkeys : Writer) :
    (retryKey st i total key fuel 0 w dkeys).ctl = .running ∧
    ((retryKey st i total key fuel 0 w dkeys).events.filter Event.isPTTL).length = fuel := by
  induction fuel generalizing w with
  | zero => simp [retryKey]
  | succ f ih =>
    obtain ⟨w1, err, h⟩ := hfail w
    rw [retryKey_ttl_retry st i total key f 0 w w1 dkeys err h (by omega)]
    obtain ⟨h1, h2⟩ := ih w1
    exact ⟨h1, by simp [KeyRun.after, List.filter_append, Event.isPTTL, h2]⟩

end Retry

/-- C2, amended: when `Dump` of a key fails `m` times with a transient error
and then succeeds, every `PTTL` succeeding, and the body is given at least
three passes: for `m ≤ 2` the dump step does not abort, after `m` failed
`Dump` calls the key is read, written to the snapshot and handed to `Restore`,
and when `Restore` answers without error or with `BUSYKEY` the loop goes on
with the next key (printing `COPIED KEY` in the first case); for `m ≥ 3` the
run ends with `os.Exit(1)` after exactly three `Dump` calls, with no `Restore`
call and no event for any later key. -/
theorem dump_retry_bound {W : Type} (st : Stores W) (fuel : Nat) (skipKey : Int) (total : Nat)
    (key : GoString) (rest : List GoString) (i : Nat) (w : W) (dkeys : Writer) (m : Nat)
    (hskip : ¬ (i : Int) < skipKey) (hm : DumpFailsThenOk st key m w) (hfuel : 3 ≤ fuel) :
    (m ≤ 2 → ∃ pre dur data reply line,
      (retryKey st i total key fuel 0 w dkeys).events
        = pre ++ [.pttl i key (.ok dur), .dump i key (.ok data), .write i key data dur,
            .restore i key dur data reply, .print i line] ∧
      (pre.filter Event.isDump).length = m ∧ (∀ e ∈ pre, e.isFailedPass = true) ∧
      (reply = none → line = .copiedKey (i + 1) total key) ∧
      ((∀ err, reply = some err → isBusyKey err = true) →
        mainLoop st fuel skipKey total (key :: rest) i w dkeys
          = (mainLoop st fuel skipKey total rest (i + 1)
              (retryKey st i total key fuel 0 w dkeys).world
              (retryKey st i total key fuel 0 w dkeys).dkeys).after
              (retryKey st i total key fuel 0 w dkeys).events)) ∧
    (3 ≤ m →
      (mainLoop st fuel skipKey total (key :: rest) i w dkeys).result = .fatal ∧
      (∀ e ∈ (mainLoop st fuel skipKey total (key :: rest) i w dkeys).trace, e.idx = i) ∧
      ((mainLoop st fuel skipKey total (key :: rest) i w dkeys).trace.filter
        Event.isDump).length = 3 ∧
      restoreCalls (mainLoop st fuel skipKey total (key :: rest) i w dkeys).trace = []) := by
  constructor
  · intro hle
    obtain ⟨pre, dur, data, reply, line, he, hcount, hpre, hpass⟩ :=
      dump_retry_ok st i total key m 0 fuel w dkeys hm (by omega) (by omega)
    refine ⟨pre, dur, data, reply, line, he, hcount, hpre, ?_, ?_⟩
    · intro hn
      rcases hpass with ⟨_, hl, _⟩ | ⟨err, hr, _⟩ | ⟨err, hr, _⟩
      · exact hl
      · rw [hn] at hr; cases hr
      · rw [hn] at hr; cases hr
    · intro hb
      apply mainLoop_next st fuel skipKey total key rest i w dkeys hskip
      rcases hpass with ⟨_, _, hc⟩ | ⟨err, _, _, _, hc⟩ | ⟨err, hr, hnb, _, _⟩
      · exact hc
      · exact hc
      · rw [hb err hr] at hnb; cases hnb
  · intro hge
    obtain ⟨hctl, hcount, hrest⟩ :=
      dump_retry_exhausted st i total key m 0 fuel w dkeys hm (by omega) (by omega) (by omega)
    rw [mainLoop_exit st fuel skipKey total key rest i w dkeys hskip hctl]
    exact ⟨rfl, retryKey_idx st i total key fuel 0 w dkeys, hcount, hrest⟩

/-! ## Concrete runs -/

/-- Witness of C1: the second of three keys, read at the second attempt and
already present at the destination, in a run that succeeds. -/
theorem transfer_complete_witness :
    (transfer scripted 3 0 keysABC threeKeys (.file [])).result = .success ∧
    keysABC[1]? = some [98] ∧ (0 : Int) ≤ ((1 : Nat) : Int) ∧
    ((RestoredOk 1 [98] (eventsAt 1 (transfer scripted 3 0 keysABC threeKeys (.file [])).trace) ∨
      RestoreConflict 1 [98]
        (eventsAt 1 (transfer scripted 3 0 keysABC threeKeys (.file [])).trace) ∨
      DumpNotFound 1 [98] (eventsAt 1 (transfer scripted 3 0 keysABC threeKeys (.file [])).trace)) ∧
    ¬ (RestoredOk 1 [98] (eventsAt 1 (transfer scripted 3 0 keysABC threeKeys (.file [])).trace) ∧
      RestoreConflict 1 [98]
        (eventsAt 1 (transfer scripted 3 0 keysABC threeKeys (.file [])).trace)) ∧
    ¬ (RestoredOk 1 [98] (eventsAt 1 (transfer scripted 3 0 keysABC threeKeys (.file [])).trace) ∧
      DumpNotFound 1 [98] (eventsAt 1 (transfer scripted 3 0 keysABC threeKeys (.file [])).trace)) ∧
    ¬ (RestoreConflict 1 [98]
        (eventsAt 1 (transfer scripted 3 0 keysABC threeKeys (.file [])).trace) ∧
      DumpNotFound 1 [98]
        (eventsAt 1 (transfer scripted 3 0 keysABC threeKeys (.file [])).trace))) :=
  ⟨by decide, by decide, by decide,
    transfer_complete scripted 3 0 keysABC threeKeys (.file []) 1 [98]
      (by decide) (by decide) (by decide)⟩

/-- Witness of C5: the `Restore` of the second of three keys is answered
`BUSYKEY`. -/
theorem restore_conflict_nonfatal_witness :
    Event.restore 1 [98] 5000000000 [50] (some (.other "BUSYKEY Target key name already exists."))
      ∈ (transfer scripted 3 0 keysABC threeKeys (.file [])).trace ∧
    ((isBusyKey (.other "BUSYKEY Target key name already exists.") = true →
      (∀ e ∈ (transfer scripted 3 0 keysABC threeKeys (.file [])).trace,
        e.idx = 1 → e.isProgress = false) ∧
      (∀ key', keysABC[1 + 1]? = some key' → ∃ reply,
        Event.pttl (1 + 1) key' reply ∈ (transfer scripted 3 0 keysABC threeKeys (.file [])).trace) ∧
      (keysABC[1 + 1]? = none →
        (transfer scripted 3 0 keysABC threeKeys (.file [])).result = .success)) ∧
    (isBusyKey (.other "BUSYKEY Target key name already exists.") = false →
      (transfer scripted 3 0 keysABC threeKeys (.file [])).result = .fatal ∧
      (∀ e ∈ (transfer scripted 3 0 keysABC threeKeys (.file [])).trace, e.idx ≤ 1) ∧
      ∃ pre, (transfer scripted 3 0 keysABC threeKeys (.file [])).trace
        = pre ++ [.restore 1 [98] 5000000000 [50]
            (some (.other "BUSYKEY Target key name already exists.")),
          .print 1 (.errorRestoringKey (.other "BUSYKEY Target key name already exists."))])) :=
  ⟨by decide,
    restore_conflict_nonfatal scripted 3 0 keysABC threeKeys (.file []) 1 [98] 5000000000 [50]
      (.other "BUSYKEY Target key name already exists.") (by decide)⟩

/-- Witness of C10: the third of three keys has vanished from the source. -/
theorem vanished_key_skipped_witness :
    Event.dump 2 [99] (.err .redisNil)
      ∈ (transfer scripted 3 0 keysABC threeKeys (.file [])).trace ∧
    ((∀ e ∈ (transfer scripted 3 0 keysABC threeKeys (.file [])).trace,
      e.idx = 2 → e.isWriteOrRestore = false) ∧
    (∃ pre post, (transfer scripted 3 0 keysABC threeKeys (.file [])).trace
        = pre ++ [.dump 2 [99] (.err .redisNil), .print 2 (.errorDumpingKey [99] .redisNil)]
            ++ post ∧
      ∀ e ∈ post, 2 < e.idx) ∧
    (∀ key', keysABC[2 + 1]? = some key' → ∃ reply,
      Event.pttl (2 + 1) key' reply ∈ (transfer scripted 3 0 keysABC threeKeys (.file [])).trace) ∧
    (keysABC[2 + 1]? = none →
      (transfer scripted 3 0 keysABC threeKeys (.file [])).result = .success)) :=
  ⟨by decide,
    vanished_key_skipped scripted 3 0 keysABC threeKeys (.file []) 2 [99] (by decide)⟩

/-- Witness of the amended C2: one transient `Dump` failure before the
success, for the first of two keys. -/
theorem dump_retry_bound_witness :
    ¬ ((0 : Nat) : Int) < 0 ∧ DumpFailsThenOk scripted [97] 1 dumpFailsOnce ∧ 3 ≤ 3 ∧
    ((1 ≤ 2 → ∃ pre dur data reply line,
      (retryKey scripted 0 2 [97] 3 0 dumpFailsOnce (.file [])).events
        = pre ++ [.pttl 0 [97] (.ok dur), .dump 0 [97] (.ok data), .write 0 [97] data dur,
            .restore 0 [97] dur data reply, .print 0 line] ∧
      (pre.filter Event.isDump).length = 1 ∧ (∀ e ∈ pre, e.isFailedPass = true) ∧
      (reply = none → line = .copiedKey (0 + 1) 2 [97]) ∧
      ((∀ err, reply = some err → isBusyKey err = true) →
        mainLoop scripted 3 0 2 ([97] :: [[98]]) 0 dumpFailsOnce (.file [])
          = (mainLoop scripted 3 0 2 [[98]] (0 + 1)
              (retryKey scripted 0 2 [97] 3 0 dumpFailsOnce (.file [])).world
              (retryKey scripted 0 2 [97] 3 0 dumpFailsOnce (.file [])).dkeys).after
              (retryKey scripted 0 2 [97] 3 0 dumpFailsOnce (.file [])).events)) ∧
    (3 ≤ 1 →
      (mainLoop scripted 3 0 2 ([97] :: [[98]]) 0 dumpFailsOnce (.file [])).result = .fatal ∧
      (∀ e ∈ (mainLoop scripted 3 0 2 ([97] :: [[98]]) 0 dumpFailsOnce (.file [])).trace,
        e.idx = 0) ∧
      ((mainLoop scripted 3 0 2 ([97] :: [[98]]) 0 dumpFailsOnce (.file [])).trace.filter
        Event.isDump).length = 3 ∧
      restoreCalls (mainLoop scripted 3 0 2 ([97] :: [[98]]) 0 dumpFailsOnce (.file [])).trace
        = [])) :=
  ⟨by decide, ⟨_, _, _, _, rfl, rfl, by decide, _, _, _, _, rfl, rfl⟩, by decide,
    dump_retry_bound scripted 3 0 2 [97] [[98]] 0 dumpFailsOnce (.file []) 1 (by decide)
      ⟨_, _, _, _, rfl, rfl, by decide, _, _, _, _, rfl, rfl⟩ (by decide)⟩

/-- C2 as stated fails at `m = 3`: with `Dump` failing three times and then
succeeding, every `PTTL` succeeding, the run of two keys ends with
`os.Exit(1)` after the third failed `Dump`; the fourth `Dump`, which would
succeed, is never made, `Restore` is never called and nothing is written to
the snapshot. -/
theorem dump_three_failures_abort :
    DumpFailsThenOk scripted [97] 3 dumpFailsThrice ∧
    (transfer scripted 10 0 keysAB dumpFailsThrice (.file [])).result = .fatal ∧
    ((transfer scripted 10 0 keysAB dumpFailsThrice (.file [])).trace.filter
      Event.isDump).length = 3 ∧
    restoreCalls (transfer scripted 10 0 keysAB dumpFailsThrice (.file [])).trace = [] ∧
    (transfer scripted 10 0 keysAB dumpFailsThrice (.file [])).dkeys = .file [] :=
  ⟨⟨_, _, _, _, rfl, rfl, by decide, _, _, _, _, rfl, rfl, by decide,
      _, _, _, _, rfl, rfl, by decide, _, _, _, _, rfl, rfl⟩,
    by decide, by decide, by decide, by decide⟩

/-- C3 fails on the code: the TTL step never increments `retryCount`. With a
source whose `PTTL` always fails, the run of two keys is still going round the
first key after any number of passes, having made that many `PTTL` calls, and
never reaches `os.Exit(1)`; and with `PTTL` failing four times and then
succeeding, the run makes the fifth call and ends successfully. -/
theorem ttl_retry_unbounded (fuel : Nat) :
    (transfer ttlDown fuel 0 keysAB () .nilFile).result = .running ∧
    ((transfer ttlDown fuel 0 keysAB () .nilFile).trace.filter Event.isPTTL).length = fuel ∧
    (∀ e ∈ (transfer ttlDown fuel 0 keysAB () .nilFile).trace, e.idx = 0) ∧
    (transfer scripted 5 0 [[97]] ttlFailsFourTimes .nilFile).result = .success ∧
    ((transfer scripted 5 0 [[97]] ttlFailsFourTimes .nilFile).trace.filter
      Event.isPTTL).length = 5 ∧
    (restoreCalls (transfer scripted 5 0 [[97]] ttlFailsFourTimes .nilFile).trace).length = 1 := by
  have hfail : ∀ w : Unit, ∃ w1 err, ttlDown.PTTL w [97] = (w1, .err err) :=
    fun _ => ⟨(), _, rfl⟩
  obtain ⟨h1, h2⟩ := ttl_retry_forever ttlDown 0 2 [97] hfail fuel () .nilFile
  have hr : transfer ttlDown fuel 0 keysAB () .nilFile
      = ⟨(retryKey ttlDown 0 2 [97] fuel 0 () .nilFile).world,
          (retryKey ttlDown 0 2 [97] fuel 0 () .nilFile).dkeys,
          (retryKey ttlDown 0 2 [97] fuel 0 () .nilFile).events, .running⟩ :=
    mainLoop_running ttlDown fuel 0 2 [97] [[98]] 0 () .nilFile (by decide) h1
  rw [hr]
  exact ⟨rfl, h2, retryKey_idx ttlDown 0 2 [97] fuel 0 () .nilFile, by decide, by decide,
    by decide⟩

end RedisCopyAll
